import Mathlib

/-!
Verification development for the glossary-config-updater core
(`src/glossary_updater/processor.py` and `src/glossary_updater/merger.py`).

The Python code operates on dynamically typed JSON-like dictionaries
(`Dict[str, Any]`).  We embed those values as `PyVal`, Python's `==` as
`pyEq` (including the `bool`/`int` identification `True == 1`), truthiness
as `pyTruthy`, iteration as `pyIter` (lists yield elements, strings yield
one-character strings, dicts yield their keys, everything else raises
`TypeError`), and hashability as `pyHashable`.  Places where the Python
code would raise a dynamic exception are modelled with `Except String`;
the exception text is abridged but the success/failure structure is exact.
-/

set_option maxHeartbeats 1000000

inductive PyVal where
  | str : String → PyVal
  | int : Int → PyVal
  | bool : Bool → PyVal
  | none : PyVal
  | list : List PyVal → PyVal
  | dict : List (String × PyVal) → PyVal
deriving Repr

/-- Lookup of a key in an association list representing a Python dict
(keys of a Python dict are unique; insertion order is preserved). -/
def findPair (k : String) : List (String × PyVal) → Option PyVal
  | [] => Option.none
  | (k', v) :: rest => if k' = k then some v else findPair k rest

mutual
/-- Python `==` on our value domain: `True == 1` and `False == 0`,
lists compare pointwise, dicts compare as unordered key-value maps. -/
def pyEq : PyVal → PyVal → Bool
  | .str a, .str b => a = b
  | .int a, .int b => a = b
  | .bool a, .bool b => a = b
  | .bool a, .int b => (if a then (1 : Int) else 0) = b
  | .int a, .bool b => a = (if b then (1 : Int) else 0)
  | .none, .none => true
  | .list a, .list b => pyEqList a b
  | .dict a, .dict b => a.length = b.length && pyEqPairs a b
  | _, _ => false

def pyEqList : List PyVal → List PyVal → Bool
  | [], [] => true
  | a :: as', b :: bs' => pyEq a b && pyEqList as' bs'
  | _, _ => false

def pyEqPairs : List (String × PyVal) → List (String × PyVal) → Bool
  | [], _ => true
  | (k, v) :: rest, b =>
      (match findPair k b with
       | some v' => pyEq v v'
       | Option.none => false) && pyEqPairs rest b
end

mutual
/-- Python `repr` (used by `str()` on containers).  Escape details of
string quoting are immaterial to every property proved below. -/
def pyRepr : PyVal → String
  | .str s => "\x27" ++ s ++ "\x27"
  | .int n => toString n
  | .bool b => if b then "True" else "False"
  | .none => "None"
  | .list xs => "[" ++ pyReprList xs ++ "]"
  | .dict ps => "\x7b" ++ pyReprPairs ps ++ "\x7d"

def pyReprList : List PyVal → String
  | [] => ""
  | [x] => pyRepr x
  | x :: xs => pyRepr x ++ ", " ++ pyReprList xs

def pyReprPairs : List (String × PyVal) → String
  | [] => ""
  | [(k, v)] => "\x27" ++ k ++ "\x27: " ++ pyRepr v
  | (k, v) :: ps => "\x27" ++ k ++ "\x27: " ++ pyRepr v ++ ", " ++ pyReprPairs ps
end

/-- Python `str()`. -/
def pyStr : PyVal → String
  | .str s => s
  | v => pyRepr v

/-- Python truthiness. -/
def pyTruthy : PyVal → Bool
  | .str s => s ≠ ""
  | .int n => n ≠ 0
  | .bool b => b
  | .none => false
  | .list xs => !xs.isEmpty
  | .dict ps => !ps.isEmpty

/-- Python hashability (lists and dicts are unhashable). -/
def pyHashable : PyVal → Bool
  | .list _ => false
  | .dict _ => false
  | _ => true

def PyVal.isDict : PyVal → Bool
  | .dict _ => true
  | _ => false

def PyVal.isList : PyVal → Bool
  | .list _ => true
  | _ => false

/-- `d.get(k)` for a dict; `none` when the key is absent.  Call sites where
the receiver may not be a dict guard with `isDict` (Python raises there). -/
def dget : PyVal → String → Option PyVal
  | .dict ps, k => findPair k ps
  | _, _ => Option.none

/-- `d.get(k, default)`. -/
def dgetD (d : PyVal) (k : String) (v : PyVal) : PyVal :=
  (dget d k).getD v

/-- `k in d` for a dict receiver. -/
def hasKey (d : PyVal) (k : String) : Bool :=
  (dget d k).isSome

def setPairs : List (String × PyVal) → String → PyVal → List (String × PyVal)
  | [], k, v => [(k, v)]
  | (k', v') :: rest, k, v =>
      if k' = k then (k, v) :: rest else (k', v') :: setPairs rest k v

/-- `d[k] = v` on a dict: replaces the value in place keeping the key's
position, or appends a new key at the end (Python dict semantics). -/
def dset : PyVal → String → PyVal → PyVal
  | .dict ps, k, v => .dict (setPairs ps k v)
  | d, _, _ => d

/-- Python iteration: lists yield elements, strings yield one-character
strings, dicts yield keys; other values raise `TypeError`. -/
def pyIter : PyVal → Except String (List PyVal)
  | .list xs => .ok xs
  | .str s => .ok (s.toList.map (fun c => .str (String.singleton c)))
  | .dict ps => .ok (ps.map (fun p => .str p.1))
  | _ => .error "TypeError: object is not iterable"

/-- Python `str.lower()`, character by character. -/
def String.lower (s : String) : String :=
  String.mk (s.data.map Char.toLower)

/-- Python `str.upper()`, character by character. -/
def String.upper (s : String) : String :=
  String.mk (s.data.map Char.toUpper)

/-- The whitespace characters stripped by Python `str.strip()` on the
ASCII inputs this program handles. -/
def pyWs (c : Char) : Bool :=
  c == ' ' || c == '\t' || c == '\n' || c == '\r' ||
    c == '\x0b' || c == '\x0c'

/-- Python `str.strip()`: drop leading and trailing whitespace. -/
def String.strip (s : String) : String :=
  String.mk (((s.data.dropWhile pyWs).reverse.dropWhile pyWs).reverse)

/-- `p` is an initial segment of `l`. -/
def leadsWith : List Char → List Char → Bool
  | [], _ => true
  | _ :: _, [] => false
  | p :: ps, c :: cs => p == c && leadsWith ps cs

def containsSubGo (sub : List Char) : List Char → Bool
  | [] => false
  | c :: cs => leadsWith sub (c :: cs) || containsSubGo sub cs

/-- Substring test, for Python `sub in s` on strings. -/
def strContains (s sub : String) : Bool :=
  sub.isEmpty || containsSubGo sub.data s.data

/-- Python `x in c` for a container `c`. -/
def pyContains (c x : PyVal) : Except String Bool :=
  match c with
  | .dict ps =>
      (match x with
       | .str k => .ok (ps.any (fun p => p.1 = k))
       | _ => .ok false)
  | .list xs => .ok (xs.any (fun y => pyEq x y))
  | .str s =>
      (match x with
       | .str sub => .ok (strContains s sub)
       | _ => .error "TypeError: in <string> requires string as left operand")
  | _ => .error "TypeError: argument is not a container"

/-- Python `d[k]` subscription; raises on non-dicts and missing keys. -/
def pyIndexKey (d : PyVal) (k : String) : Except String PyVal :=
  match d with
  | .dict ps =>
      (match findPair k ps with
       | some v => .ok v
       | Option.none => .error "KeyError")
  | _ => .error "TypeError: object is not subscriptable"

/-- Python `x in someSet` where the set is kept as a list of its elements:
hashes `x` first (raising on unhashable values), then compares with `==`. -/
def pyMemSet (x : PyVal) (s : List PyVal) : Except String Bool :=
  if pyHashable x then .ok (s.any (fun y => pyEq x y))
  else .error "TypeError: unhashable type"

/-- Python `set(v)`: iterates `v` and hashes each element, raising
`TypeError` on unhashable elements.  Membership in the result is via
`pyMemSet`, so duplicates need not be removed. -/
def pyHashList (v : PyVal) : Except String (List PyVal) :=
  match pyIter v with
  | .error e => .error e
  | .ok xs =>
      if xs.all pyHashable then .ok xs
      else .error "TypeError: unhashable type"

/-!
`GlossaryTerm` (processor.py lines 206-242).  The Python constructor
raises `ValueError` on an empty phrase or definition; `GlossaryTerm.init`
returns `Except` accordingly.  `metadata or {}` replaces a falsy metadata
value by an empty dict.
-/

structure GlossaryTerm where
  phrase : String
  definition : String
  metadata : PyVal
deriving Repr

/-- `GlossaryTerm.__init__`: raises `ValueError` when the phrase or the
definition is empty (Python truthiness on `str` is non-emptiness). -/
def GlossaryTerm.init (phrase definition : String) (metadata : PyVal) :
    Except String GlossaryTerm :=
  let md := if pyTruthy metadata then metadata else .dict []
  if phrase = "" then .error "Phrase cannot be empty"
  else if definition = "" then .error "Definition cannot be empty"
  else .ok ⟨phrase, definition, md⟩

/-- `GlossaryTerm.to_dict`: phrase and definition always, metadata only
when truthy. -/
def GlossaryTerm.toDict (t : GlossaryTerm) : PyVal :=
  .dict ([("phrase", .str t.phrase), ("definition", .str t.definition)] ++
    (if pyTruthy t.metadata then [("metadata", t.metadata)] else []))

/-!
`ConfigurationValidator` (merger.py lines 20-221), with the default schema
of `get_default_schema` (merger.py lines 27-46): required top-level fields
`analysisEntityList` and `resourceList`, entity fields `id`/`name`,
resource field `id`, at most 100 entities, 1000 resources and 5000 terms
per glossary resource.  `validate_configuration` wraps everything in
`try/except`, so a dynamic error during validation yields an invalid
verdict instead of propagating.
-/

def glossaryEntityId : String := "676c6f73-7361-7279-3132-333435363738"

/-- `_validate_glossary_entity`: required fields and list-shaped
`resources`. -/
def validateGlossaryEntity (e : PyVal) (i : Nat) : List String :=
  (["id", "name", "type", "resources"].filterMap (fun f =>
      if hasKey e f then Option.none
      else some ("Glossary entity " ++ toString i ++ " missing required field: " ++ f))) ++
  (if (dgetD e "resources" (.list [])).isList then []
   else ["Glossary entity " ++ toString i ++ " resources must be an array"])

/-- One step of the entity loop of `_validate_entity_list`: required
fields, duplicate-id bookkeeping, and the glossary-entity sub-check.
Evaluating `entity.get("name", "").lower()` on a non-string raises. -/
def validateEntityStep (i : Nat) (seen : List PyVal) (e : PyVal) :
    Except String (List String × List PyVal) :=
  if !e.isDict then
    .ok (["Entity " ++ toString i ++ " must be an object"], seen)
  else
    let missing := ["id", "name"].filterMap (fun f =>
      if hasKey e f then Option.none
      else some ("Entity " ++ toString i ++ " missing required field: " ++ f))
    let eid := dgetD e "id" .none
    let dupStep : Except String (List String × List PyVal) :=
      if pyTruthy eid then
        match pyMemSet eid seen with
        | .error err => .error err
        | .ok isDup =>
            .ok ((if isDup then ["Duplicate entity ID: " ++ pyStr eid] else []),
              eid :: seen)
      else .ok ([], seen)
    match dupStep with
    | .error err => .error err
    | .ok (dupErrs, seen') =>
        let isGlossary : Except String Bool :=
          if pyEq (dgetD e "type" .none) (.str "glossary") then .ok true
          else
            match dgetD e "name" (.str "") with
            | .str nm => .ok (nm.lower == "glossary")
            | _ => .error "AttributeError: object has no attribute lower"
        match isGlossary with
        | .error err => .error err
        | .ok g =>
            let glossErrs := if g then validateGlossaryEntity e i else []
            .ok (missing ++ dupErrs ++ glossErrs, seen')

def validateEntityListGo (i : Nat) (seen : List PyVal) :
    List PyVal → Except String (List String)
  | [] => .ok []
  | e :: rest =>
      match validateEntityStep i seen e with
      | .error err => .error err
      | .ok (errs, seen') =>
          match validateEntityListGo (i + 1) seen' rest with
          | .error err => .error err
          | .ok more => .ok (errs ++ more)

/-- `_validate_entity_list`. -/
def validateEntityList (v : PyVal) : Except String (List String) :=
  match v with
  | .list es =>
      let sizeErr := if es.length > 100 then ["Too many entities (max: 100)"] else []
      (match validateEntityListGo 0 [] es with
       | .error err => .error err
       | .ok errs => .ok (sizeErr ++ errs))
  | _ => .ok ["analysisEntityList must be an array"]

/-- `_validate_glossary_resource`: `glossary` must be a list of at most
5000 objects each carrying `phrase` and `definition`. -/
def validateGlossaryResource (r : PyVal) (i : Nat) : List String :=
  match dgetD r "glossary" (.list []) with
  | .list gl =>
      (if gl.length > 5000 then
        ["Glossary resource " ++ toString i ++ " has too many terms (max: 5000)"]
       else []) ++
      (gl.enum.flatMap (fun (tIdx, term) =>
        if !term.isDict then
          ["Glossary term " ++ toString tIdx ++ " in resource " ++ toString i ++
           " must be an object"]
        else
          (if hasKey term "phrase" then []
           else ["Glossary term " ++ toString tIdx ++ " in resource " ++ toString i ++
                 " missing phrase"]) ++
          (if hasKey term "definition" then []
           else ["Glossary term " ++ toString tIdx ++ " in resource " ++ toString i ++
                 " missing definition"])))
  | _ => ["Glossary resource " ++ toString i ++ " glossary field must be an array"]

/-- One step of the resource loop of `_validate_resource_list`. -/
def validateResourceStep (i : Nat) (seen : List PyVal) (r : PyVal) :
    Except String (List String × List PyVal) :=
  if !r.isDict then
    .ok (["Resource " ++ toString i ++ " must be an object"], seen)
  else
    let missing := if hasKey r "id" then []
      else ["Resource " ++ toString i ++ " missing required field: id"]
    let rid := dgetD r "id" .none
    let dupStep : Except String (List String × List PyVal) :=
      if pyTruthy rid then
        match pyMemSet rid seen with
        | .error err => .error err
        | .ok isDup =>
            .ok ((if isDup then ["Duplicate resource ID: " ++ pyStr rid] else []),
              rid :: seen)
      else .ok ([], seen)
    match dupStep with
    | .error err => .error err
    | .ok (dupErrs, seen') =>
        let glossErrs :=
          if pyEq (dgetD r "type" .none) (.str "glossary") && hasKey r "glossary" then
            validateGlossaryResource r i
          else []
        .ok (missing ++ dupErrs ++ glossErrs, seen')

def validateResourceListGo (i : Nat) (seen : List PyVal) :
    List PyVal → Except String (List String)
  | [] => .ok []
  | r :: rest =>
      match validateResourceStep i seen r with
      | .error err => .error err
      | .ok (errs, seen') =>
          match validateResourceListGo (i + 1) seen' rest with
          | .error err => .error err
          | .ok more => .ok (errs ++ more)

/-- `_validate_resource_list`. -/
def validateResourceList (v : PyVal) : Except String (List String) :=
  match v with
  | .list rs =>
      let sizeErr := if rs.length > 1000 then ["Too many resources (max: 1000)"] else []
      (match validateResourceListGo 0 [] rs with
       | .error err => .error err
       | .ok errs => .ok (sizeErr ++ errs))
  | _ => .ok ["resourceList must be an array"]

/-- Resource-id collection of `_validate_cross_references`:
`if "id" in resource: resource_ids.add(resource["id"])` over
`config.get("resourceList", [])`. -/
def crossRefResourceIds (cfg : PyVal) : Except String (List PyVal) := do
  let rs ← pyIter (dgetD cfg "resourceList" (.list []))
  rs.foldlM (fun acc r => do
    let has ← pyContains r (.str "id")
    if has then
      let rid ← pyIndexKey r "id"
      if pyHashable rid then pure (rid :: acc)
      else throw "TypeError: unhashable type"
    else pure acc) []

/-- `_validate_cross_references`: every resource id referenced from an
entity's `resources` must exist in the resource list. -/
def validateCrossReferences (cfg : PyVal) : Except String (List String) := do
  let rids ← crossRefResourceIds cfg
  let es ← pyIter (dgetD cfg "analysisEntityList" (.list []))
  es.enum.foldlM (fun acc (i, e) => do
    if !e.isDict then throw "AttributeError: object has no attribute get"
    else
      let refs ← pyIter (dgetD e "resources" (.list []))
      let errs ← refs.foldlM (fun acc2 ref => do
        let isMem ← pyMemSet ref rids
        if isMem then pure acc2
        else pure (acc2 ++ ["Entity " ++ toString i ++
          " references non-existent resource: " ++ pyStr ref])) []
      pure (acc ++ errs)) []

/-- Body of `validate_configuration` before its `try/except`. -/
def validateConfigurationBody (cfg : PyVal) : Except String (List String) :=
  if !cfg.isDict then .ok ["Configuration must be a dictionary"]
  else
    let missing := ["analysisEntityList", "resourceList"].filterMap (fun f =>
      if hasKey cfg f then Option.none
      else some ("Missing required field: " ++ f))
    let entityPart : Except String (List String) :=
      match dget cfg "analysisEntityList" with
      | some v => validateEntityList v
      | Option.none => .ok []
    match entityPart with
    | .error err => .error err
    | .ok entityErrs =>
        let resourcePart : Except String (List String) :=
          match dget cfg "resourceList" with
          | some v => validateResourceList v
          | Option.none => .ok []
        match resourcePart with
        | .error err => .error err
        | .ok resourceErrs =>
            match validateCrossReferences cfg with
            | .error err => .error err
            | .ok crossErrs =>
                .ok (missing ++ entityErrs ++ resourceErrs ++ crossErrs)

/-- `validate_configuration`: returns `(is_valid, errors)`; a dynamic
error during validation is caught and reported as an error entry. -/
def validateConfiguration (cfg : PyVal) : Bool × List String :=
  match validateConfigurationBody cfg with
  | .ok errs => (errs.isEmpty, errs)
  | .error e => (false, ["Configuration validation error: " ++ e])

/-!
`ConfigurationMerger` (merger.py lines 224-484).  The merge operates on a
deep copy of the caller's document; our embedding is pure, and the Python
aliasing between the returned `glossary_entity` and the entity stored in
the document is modelled by addressing the anchor entity through its index
in `analysisEntityList`.  The non-deterministic inputs of the Python code
— `datetime.now().isoformat()` and the freshly generated resource id — are
threaded as the explicit parameters `now` and `rid`.
-/

/-- The entity predicate of `_find_or_create_glossary_entity`
(merger.py lines 325-328), with Python's short-circuit order:
id match, then `name.lower()` (which raises on a non-string name),
then type match. -/
def entityMatches (e : PyVal) : Except String Bool :=
  if !e.isDict then .error "AttributeError: object has no attribute get"
  else if pyEq (dgetD e "id" .none) (.str glossaryEntityId) then .ok true
  else
    match dgetD e "name" (.str "") with
    | .str nm =>
        if nm.lower == "glossary" then .ok true
        else .ok (pyEq (dgetD e "type" .none) (.str "glossary"))
    | _ => .error "AttributeError: object has no attribute lower"

/-- First entity satisfying `entityMatches`, if any. -/
def scanForGlossary : List PyVal → Except String (Option Nat)
  | [] => .ok Option.none
  | e :: rest =>
      match entityMatches e with
      | .error err => .error err
      | .ok true => .ok (some 0)
      | .ok false =>
          match scanForGlossary rest with
          | .error err => .error err
          | .ok (some i) => .ok (some (i + 1))
          | .ok Option.none => .ok Option.none

/-- The freshly created glossary entity of merger.py lines 334-344. -/
def newGlossaryEntity (now : String) (n : Nat) : PyVal :=
  .dict [("id", .str glossaryEntityId), ("name", .str "Glossary"),
         ("type", .str "glossary"), ("enabled", .bool true),
         ("resources", .list []), ("searchOrder", .int (n + 1)),
         ("description", .str "Automatically managed glossary terms"),
         ("created", .str now), ("updated", .str now)]

/-- `_find_or_create_glossary_entity`: returns the (possibly extended)
document together with the index of the anchor entity in
`analysisEntityList`.  A present non-list `analysisEntityList` always ends
in a dynamic error in Python (entities are `.get`-accessed or the value is
`.append`-ed), hence the `throw`. -/
def findOrCreateGlossaryEntityGo (now : String) (cfg : PyVal) (es : List PyVal) :
    Except String (PyVal × Nat) :=
  match scanForGlossary es with
  | .error err => .error err
  | .ok (some i) => .ok (cfg, i)
  | .ok Option.none =>
      let es' := es ++ [newGlossaryEntity now es.length]
      .ok (dset cfg "analysisEntityList" (.list es'), es.length)

def findOrCreateGlossaryEntity (now : String) (cfg : PyVal) :
    Except String (PyVal × Nat) :=
  match dget cfg "analysisEntityList" with
  | some (.list es) => findOrCreateGlossaryEntityGo now cfg es
  | some _ => .error "TypeError: analysisEntityList is not a list"
  | Option.none => findOrCreateGlossaryEntityGo now cfg []

/-- `_extract_terms_from_resource` (merger.py lines 373-410): the bundle
encoding (`glossary` list of `phrase`/`definition` objects, values pushed
through `str()` and `.strip()`, empty results skipped) or the legacy
encoding (`terms` dict of phrase → definition, truthy pairs only, no
stripping).  Each failed `GlossaryTerm` construction is skipped. -/
def extractTermsFromResource (r : PyVal) : List GlossaryTerm :=
  match dget r "glossary" with
  | some (.list items) =>
      items.filterMap (fun item =>
        if item.isDict && hasKey item "phrase" && hasKey item "definition" then
          let phrase := (pyStr (dgetD item "phrase" .none)).strip
          let defn := (pyStr (dgetD item "definition" .none)).strip
          if phrase ≠ "" && defn ≠ "" then
            (GlossaryTerm.init phrase defn (dgetD item "metadata" (.dict []))).toOption
          else Option.none
        else Option.none)
  | _ =>
      match dget r "terms" with
      | some (.dict pairs) =>
          pairs.filterMap (fun (phrase, defn) =>
            if phrase ≠ "" && pyTruthy defn then
              (GlossaryTerm.init phrase (pyStr defn) .none).toOption
            else Option.none)
      | _ => []

/-- Inner loop of `_extract_existing_terms`: the first resource of the
resource list whose id equals the reference (Python `==`), if any.
`resource.get("id")` raises on a non-dict resource. -/
def findResource (ref : PyVal) : List PyVal → Except String (Option PyVal)
  | [] => .ok Option.none
  | r :: rest =>
      if !r.isDict then .error "AttributeError: object has no attribute get"
      else if pyEq (dgetD r "id" .none) ref then .ok (some r)
      else findResource ref rest

/-- `_extract_existing_terms`: walk the anchor entity's `resources`
references and collect the terms of each first-matching resource. -/
def extractRefsGo (rlist : List PyVal) : List PyVal → Except String (List GlossaryTerm)
  | [] => .ok []
  | ref :: rest =>
      match findResource ref rlist with
      | .error err => .error err
      | .ok (some r) =>
          (match extractRefsGo rlist rest with
           | .error err => .error err
           | .ok acc => .ok (extractTermsFromResource r ++ acc))
      | .ok Option.none => extractRefsGo rlist rest

def extractExistingTerms (cfg : PyVal) (i : Nat) :
    Except String (List GlossaryTerm) :=
  let entity := (match dget cfg "analysisEntityList" with
    | some (.list es) => es.getD i (.dict [])
    | _ => .dict [])
  match pyIter (dgetD cfg "resourceList" (.list [])) with
  | .error err => .error err
  | .ok rlist =>
      match pyIter (dgetD entity "resources" (.list [])) with
      | .error err => .error err
      | .ok refs => extractRefsGo rlist refs

/-- The in-place update of `_merge_terms`: replace the first term whose
lower-cased phrase matches, leaving everything else untouched (the Python
loop breaks after the first hit and does nothing when there is none). -/
def updateFirstMatch (t : GlossaryTerm) : List GlossaryTerm → List GlossaryTerm
  | [] => []
  | u :: rest =>
      if u.phrase.lower == t.phrase.lower then t :: rest
      else u :: updateFirstMatch t rest

def mergeTermsGo (existingLowers : List String) :
    List GlossaryTerm → List GlossaryTerm → List GlossaryTerm
  | acc, [] => acc
  | acc, t :: ts =>
      if existingLowers.contains t.phrase.lower then
        mergeTermsGo existingLowers (updateFirstMatch t acc) ts
      else
        mergeTermsGo existingLowers (acc ++ [t]) ts

/-- `_merge_terms` (merger.py lines 412-437): the membership test uses a
lookup built once from the existing terms, while the in-place replacement
scans the working list. -/
def mergeTerms (existing newTerms : List GlossaryTerm) : List GlossaryTerm :=
  mergeTermsGo (existing.map (fun t => t.phrase.lower)) existing newTerms

/-- The count of merger.py lines 290-291: terms whose lower-cased phrase
does not occur among the existing terms' lower-cased phrases. -/
def countNewTerms (existing terms : List GlossaryTerm) : Nat :=
  (terms.filter (fun t =>
    !((existing.map (fun e => e.phrase.lower)).contains t.phrase.lower))).length

/-- The bundle resource written by `_update_configuration_with_terms`
(merger.py lines 465-473). -/
def mkGlossaryResource (now rid : String) (terms : List GlossaryTerm) : PyVal :=
  .dict [("id", .str rid),
         ("alias", .str ("Glossary Terms (" ++ toString terms.length ++ " terms)")),
         ("type", .str "glossary"), ("searchOrder", .int 1),
         ("created", .str now), ("updated", .str now),
         ("glossary", .list (terms.map GlossaryTerm.toDict))]

/-- `_update_configuration_with_terms` (merger.py lines 439-484): remove
every resource whose id is in the set of the anchor's current references,
then — when there are terms — append one bundle resource holding all of
them and point the anchor at it, or — when there are none — leave the
anchor with an empty reference list. -/
def filterResourcesGo (oldIds : List PyVal) : List PyVal → Except String (List PyVal)
  | [] => .ok []
  | r :: rest =>
      if !r.isDict then .error "AttributeError: object has no attribute get"
      else
        match pyMemSet (dgetD r "id" .none) oldIds with
        | .error err => .error err
        | .ok true => filterResourcesGo oldIds rest
        | .ok false =>
            match filterResourcesGo oldIds rest with
            | .error err => .error err
            | .ok fs => .ok (r :: fs)

/-- Rewrite of the anchor entity inside the entity list of a document:
`glossary_entity["resources"] = refs; glossary_entity["updated"] = now`
seen through the alias into `config["analysisEntityList"]`. -/
def setAnchorEntity (now : String) (i : Nat) (cfg' : PyVal) (refs : PyVal) : PyVal :=
  match dget cfg' "analysisEntityList" with
  | some (.list es) =>
      dset cfg' "analysisEntityList"
        (.list (es.set i
          (dset (dset (es.getD i (.dict [])) "resources" refs)
            "updated" (.str now))))
  | _ => cfg'

def updateConfigurationWithTerms (now rid : String) (cfg : PyVal) (i : Nat)
    (terms : List GlossaryTerm) : Except String PyVal :=
  let cfg := if hasKey cfg "resourceList" then cfg
    else dset cfg "resourceList" (.list [])
  let entity := (match dget cfg "analysisEntityList" with
    | some (.list es) => es.getD i (.dict [])
    | _ => .dict [])
  match pyHashList (dgetD entity "resources" (.list [])) with
  | .error err => .error err
  | .ok oldIds =>
      match pyIter (dgetD cfg "resourceList" (.list [])) with
      | .error err => .error err
      | .ok items =>
          match filterResourcesGo oldIds items with
          | .error err => .error err
          | .ok filtered =>
              if terms.isEmpty then
                .ok (setAnchorEntity now i
                  (dset cfg "resourceList" (.list filtered)) (.list []))
              else
                .ok (setAnchorEntity now i
                  (dset cfg "resourceList"
                    (.list (filtered ++ [mkGlossaryResource now rid terms])))
                  (.list [.str rid]))

/-- The merge statistics dictionary (merger.py lines 262-274). -/
structure MergeStats where
  strategy : String
  terms_provided : Nat
  terms_before : Nat
  terms_after : Nat
  terms_added : Nat
  terms_updated : Nat
  terms_removed : Nat
  glossary_entity_found : Bool
  validation_passed : Bool
  backup_created : Bool
  timestamp : String
deriving Repr

/-- The `MergeError` exception: raised directly for an invalid strategy or
a failed input validation, and wrapped around any exception escaping the
`try` block of `merge_glossary_terms`. -/
inductive MergeError where
  | invalidStrategy (strategy : String)
  | inputValidationFailed (msg : String)
  | mergeFailed (msg : String)
deriving Repr

/-- Steps 3 and 4 of `merge_glossary_terms`: find or create the anchor
entity, then extract the currently stored terms. -/
def mergePrep (now : String) (cfg : PyVal) :
    Except String (PyVal × Nat × List GlossaryTerm) :=
  match findOrCreateGlossaryEntity now cfg with
  | .error err => .error err
  | .ok (cfg₁, i) =>
      match extractExistingTerms cfg₁ i with
      | .error err => .error err
      | .ok existing => .ok (cfg₁, i, existing)

/-- The `try` block of `merge_glossary_terms` (steps 3-8). -/
def mergeCore (now rid : String) (cfg : PyVal) (terms : List GlossaryTerm)
    (strategy : String) : Except String (PyVal × MergeStats) :=
  match mergePrep now cfg with
  | .error e => .error e
  | .ok (cfg₁, i, existing) =>
    let finalTerms := if strategy == "merge" then mergeTerms existing terms else terms
    let added := if strategy == "merge" then countNewTerms existing terms
      else terms.length
    let updated := if strategy == "merge" then terms.length - added else 0
    let removed := if strategy == "merge" then 0 else existing.length
    match updateConfigurationWithTerms now rid cfg₁ i finalTerms with
    | .error e => .error e
    | .ok cfg₂ =>
      match validateConfiguration cfg₂ with
      | (true, _) =>
          .ok (cfg₂,
            { strategy := strategy, terms_provided := terms.length,
              terms_before := existing.length, terms_after := finalTerms.length,
              terms_added := added, terms_updated := updated,
              terms_removed := removed, glossary_entity_found := true,
              validation_passed := true, backup_created := true,
              timestamp := now })
      | (false, errs) =>
          .error ("Final configuration validation failed: " ++
            String.intercalate "; " (errs.take 5))

/-- `merge_glossary_terms` (merger.py lines 232-318): strategy check,
input validation, then the `try` block whose failures are wrapped into a
`MergeError`. -/
def mergeGlossaryTerms (now rid : String) (cfg : PyVal)
    (terms : List GlossaryTerm) (strategy : String) :
    Except MergeError (PyVal × MergeStats) :=
  if strategy ≠ "merge" && strategy ≠ "overwrite" then
    .error (.invalidStrategy strategy)
  else
    match validateConfiguration cfg with
    | (false, errs) =>
        .error (.inputValidationFailed
          ("Input configuration validation failed: " ++
            String.intercalate "; " (errs.take 5)))
    | (true, _) =>
        match mergeCore now rid cfg terms strategy with
        | .ok r => .ok r
        | .error e => .error (.mergeFailed ("Failed to merge glossary terms: " ++ e))

/-- The caller's view of one `merge_glossary_terms` call: the first
component is the caller's document object after the call.  The Python
implementation deep-copies the document (merger.py line 259) and performs
every mutation on the copy, so the caller's object is returned exactly as
it was passed in; an implementation mutating the document in place would
return the mutated document here. -/
def mergeGlossaryTermsCall (now rid : String) (cfg : PyVal)
    (terms : List GlossaryTerm) (strategy : String) :
    PyVal × Except MergeError (PyVal × MergeStats) :=
  (cfg, mergeGlossaryTerms now rid cfg terms strategy)

/-!
A heap view of the same call, for the frame property.  Python documents
are objects: variables hold references into a heap of cells, assignment
copies references, and `copy.deepcopy` is the one operation that builds a
new object.  The heap is a list of cells holding document values, a
reference is an index.  `merge_glossary_terms` receives the caller's
reference; line 259 (`updated_config = copy.deepcopy(config)`) allocates
a FRESH cell holding the same value, and every mutation statement of the
body names `updated_config` or an object reached from it (lines 277-307
and the helpers `_find_or_create_glossary_entity` and
`_update_configuration_with_terms` they call, which mutate the document
passed to them — the copy), so the body's writes all land in the fresh
cell; the returned document is the copy's reference.  An implementation
that skipped the deepcopy (aliasing `updated_config = config`) would
write through the caller's own reference and falsify the frame theorem
below, which derives the caller's cell being untouched from the
freshness of the allocation.
-/

/-- Dereference: the value in cell `r`. -/
def readCell (σ : List PyVal) (r : Nat) : PyVal :=
  σ.getD r .none

/-- Mutation through a reference: overwrite cell `r`. -/
def writeCell (σ : List PyVal) (r : Nat) (v : PyVal) : List PyVal :=
  σ.set r v

/-- `copy.deepcopy`: allocate a fresh cell, disjoint from every existing
one, holding the (recursively copied) value; returns the extended heap
and the fresh reference. -/
def alloc (σ : List PyVal) (v : PyVal) : List PyVal × Nat :=
  (σ ++ [v], σ.length)

/-- `merge_glossary_terms` acting on the caller's heap: the strategy guard
and the input validation read the caller's cell, the deepcopy of line 259
allocates the working cell, and the `try` block's mutations write the
rewritten document into that working cell, whose reference is returned on
success. -/
def mergeGlossaryTermsHeap (now rid : String) (σ : List PyVal) (cfgRef : Nat)
    (terms : List GlossaryTerm) (strategy : String) :
    List PyVal × Except MergeError (Nat × MergeStats) :=
  if strategy ≠ "merge" && strategy ≠ "overwrite" then
    (σ, .error (.invalidStrategy strategy))
  else
    match validateConfiguration (readCell σ cfgRef) with
    | (false, errs) =>
        (σ, .error (.inputValidationFailed
          ("Input configuration validation failed: " ++
            String.intercalate "; " (errs.take 5))))
    | (true, _) =>
        let copied := alloc σ (readCell σ cfgRef)
        match mergeCore now rid (readCell copied.1 copied.2) terms strategy with
        | .ok (d, s) => (writeCell copied.1 copied.2 d, .ok (copied.2, s))
        | .error e =>
            (copied.1,
             .error (.mergeFailed ("Failed to merge glossary terms: " ++ e)))

/-- The elements of a list value (empty for any non-list). -/
def pyValList (v : PyVal) : List PyVal :=
  match v with
  | .list l => l
  | _ => []

/-- The resource list of a document, as a Lean list (empty for a missing
or non-list `resourceList`). -/
def listResources (cfg : PyVal) : List PyVal :=
  match dget cfg "resourceList" with
  | some v => pyValList v
  | Option.none => []

/-- The anchor entity of a document: the first entity satisfying the
glossary predicate, with its index. -/
def anchorOf (cfg : PyVal) : Option (Nat × PyVal) :=
  match dget cfg "analysisEntityList" with
  | some (.list es) =>
      match scanForGlossary es with
      | .ok (some i) => (es.get? i).map (fun e => (i, e))
      | _ => Option.none
  | _ => Option.none

/-- The reference list stored in an entity's `resources` field, read the
way the merge reads it (Python iteration of `entity.get("resources", [])`,
empty when iteration would raise). -/
def entityRefs (e : PyVal) : List PyVal :=
  match pyIter (dgetD e "resources" (.list [])) with
  | .ok refs => refs
  | .error _ => []

/-- The anchor's reference list before a merge: empty when the document
has no anchor entity (the merge then creates one with no references). -/
def oldAnchorRefs (cfg : PyVal) : List PyVal :=
  match anchorOf cfg with
  | some (_, e) => entityRefs e
  | Option.none => []

/-!
`TermValidator` and `FileProcessor` (processor.py lines 28-203 and
245-607), with the default schema of `get_default_schema` (processor.py
lines 38-56).  Strings coming out of the extractors are plain Lean
strings; `re.sub(r'<[^>]+>', '', s)` and `re.sub(r'\s+', ' ', s)` are
implemented as direct scanners with the same semantics on their inputs.
-/

/-- Scanner equivalent of `re.sub(r'<[^>]+>', '', s)`: a `<` followed by
one or more non-`>` characters and a `>` is removed; an unterminated or
empty candidate tag is kept verbatim.  `buf` holds (reversed) the
characters read since an opening `<`. -/
def stripTagsGo (buf : Option (List Char)) : List Char → List Char
  | [] =>
      (match buf with
       | some b => '<' :: b.reverse
       | Option.none => [])
  | c :: rest =>
      match buf with
      | Option.none =>
          if c = '<' then stripTagsGo (some []) rest
          else c :: stripTagsGo Option.none rest
      | some b =>
          if c = '>' then
            if b.isEmpty then '<' :: '>' :: stripTagsGo Option.none rest
            else stripTagsGo Option.none rest
          else stripTagsGo (some (c :: b)) rest

def stripHtmlTags (s : String) : String :=
  String.mk (stripTagsGo Option.none s.toList)

/-- Scanner equivalent of `re.sub(r'\s+', ' ', s)`: each maximal run of
whitespace becomes a single space. -/
def collapseWsGo (prevWs : Bool) : List Char → List Char
  | [] => []
  | c :: rest =>
      if c.isWhitespace then
        (if prevWs then [] else [' ']) ++ collapseWsGo true rest
      else c :: collapseWsGo false rest

def collapseWhitespace (s : String) : String :=
  String.mk (collapseWsGo false s.toList)

/-- Python `str.title()`: a letter is upper-cased when the previous
character is not a letter, lower-cased otherwise. -/
def titleCaseGo (prevAlpha : Bool) : List Char → List Char
  | [] => []
  | c :: rest =>
      (if c.isAlpha then (if prevAlpha then c.toLower else c.toUpper) else c) ::
        titleCaseGo c.isAlpha rest

def titleCase (s : String) : String :=
  String.mk (titleCaseGo false s.toList)

/-- `clean_phrase` (processor.py lines 83-109): strip, drop HTML tags,
drop the forbidden characters/substrings of the default schema, collapse
whitespace, title-case, restore the fixed abbreviation list (in source
order, so `Http` is rewritten before `Https` can be seen). -/
def cleanPhrase (phrase : String) : String :=
  if phrase = "" || phrase = "None" then ""
  else
    let p := phrase.strip
    let p := stripHtmlTags p
    let p := ["<", ">", "\"", "\x27", ";", "script"].foldl
      (fun s f => s.replace f "") p
    let p := (collapseWhitespace p).strip
    let p := titleCase p
    ["Api", "Rest", "Json", "Xml", "Http", "Https", "Url", "Uri", "Sql",
     "Css", "Html"].foldl (fun s a => s.replace a a.upper) p

/-- `clean_definition` (processor.py lines 111-137): strip, drop HTML
tags, drop forbidden substrings, collapse whitespace, capitalize the
first letter, append a period when no terminal punctuation is present. -/
def cleanDefinition (definition : String) : String :=
  if definition = "" || definition = "None" then ""
  else
    let d := definition.strip
    let d := stripHtmlTags d
    let d := ["<", ">", "script", "javascript"].foldl
      (fun s f => s.replace f "") d
    let d := (collapseWhitespace d).strip
    let d := if d ≠ "" && d.front.isLower then
        String.singleton d.front.toUpper ++ d.drop 1
      else d
    if d ≠ "" && !(d.endsWith "." || d.endsWith "!" || d.endsWith "?") then
      d ++ "."
    else d

/-- The character class of the default phrase pattern
`^[A-Za-z0-9\s\-_\(\)\.\/\&]+$`. -/
def phraseCharOk (c : Char) : Bool :=
  c.isAlpha || c.isDigit || c.isWhitespace ||
    c ∈ ['-', '_', '(', ')', '.', '/', '&']

/-- Python `s.split()` word count. -/
def wordCount (s : String) : Nat :=
  ((s.split Char.isWhitespace).filter (fun w => w ≠ "")).length

/-- `validate_phrase` under the default schema, as the first failure
message (the Python method returns at the first failed check, appending
exactly one message). -/
def validatePhraseErr (phrase : String) : Option String :=
  if phrase = "" then some "Phrase is required but empty"
  else if phrase.length < 1 then
    some ("Phrase too short: \x27" ++ phrase ++ "\x27")
  else if phrase.length > 100 then
    some ("Phrase too long: \x27" ++ phrase.take 50 ++ "...\x27")
  else if !(phrase.toList.all phraseCharOk) then
    some ("Phrase contains invalid characters: \x27" ++ phrase ++ "\x27")
  else if wordCount phrase > 10 then
    some ("Phrase has too many words: \x27" ++ phrase ++ "\x27")
  else Option.none

/-- `validate_definition` under the default schema. -/
def validateDefinitionErr (definition : String) : Option String :=
  if definition = "" then some "Definition is required but empty"
  else if definition.length < 5 then
    some ("Definition too short: \x27" ++ definition ++ "\x27")
  else if definition.length > 500 then
    some ("Definition too long: \x27" ++ definition.take 50 ++ "...\x27")
  else if !(definition.endsWith "." || definition.endsWith "!" ||
      definition.endsWith "?") then
    some ("Definition must end with punctuation: \x27" ++ definition ++ "\x27")
  else Option.none

/-- The mutable counters of a `TermValidator`. -/
structure ValidatorState where
  validation_errors : List String
  cleaned_count : Nat
  rejected_count : Nat
deriving Repr

/-- `clean_and_validate_term` (processor.py lines 58-81): clean both
fields, validate the phrase and then the definition (short-circuit, one
message per failure), construct the term on success; any exception inside
the `try` — only the `GlossaryTerm` constructor can raise here — is
recorded as a validation error and counted as a rejection.  The function
itself never raises. -/
def cleanAndValidateTerm (st : ValidatorState) (phrase definition : String)
    (metadata : PyVal) : Option GlossaryTerm × ValidatorState :=
  let cp := cleanPhrase phrase
  let cd := cleanDefinition definition
  match validatePhraseErr cp with
  | some e =>
      (Option.none,
       { st with validation_errors := st.validation_errors ++ [e],
                 rejected_count := st.rejected_count + 1 })
  | Option.none =>
      match validateDefinitionErr cd with
      | some e =>
          (Option.none,
           { st with validation_errors := st.validation_errors ++ [e],
                     rejected_count := st.rejected_count + 1 })
      | Option.none =>
          match GlossaryTerm.init cp cd
              (if pyTruthy metadata then metadata else .dict []) with
          | .ok t => (some t, { st with cleaned_count := st.cleaned_count + 1 })
          | .error e =>
              (Option.none,
               { st with
                 validation_errors :=
                   st.validation_errors ++ ["Term validation error: " ++ e],
                 rejected_count := st.rejected_count + 1 })

/-- The report of `get_validation_report` (processor.py lines 195-203). -/
structure ValidationReport where
  cleaned_count : Nat
  rejected_count : Nat
  error_count : Nat
  errors : List String
  success_rate : ℚ
deriving Repr

/-- `get_validation_report`: counts, the first 10 recorded errors, and the
acceptance ratio (0 when nothing was processed). -/
def getValidationReport (st : ValidatorState) : ValidationReport :=
  { cleaned_count := st.cleaned_count,
    rejected_count := st.rejected_count,
    error_count := st.validation_errors.length,
    errors := st.validation_errors.take 10,
    success_rate :=
      if st.cleaned_count + st.rejected_count > 0 then
        (st.cleaned_count : ℚ) / ((st.cleaned_count : ℚ) + (st.rejected_count : ℚ))
      else 0 }

/-- `_deduplicate_terms` (processor.py lines 590-603): walk the list,
keeping a term only when its lower-cased phrase has not been seen. -/
def deduplicateTermsGo (seen : List String) :
    List GlossaryTerm → List GlossaryTerm
  | [] => []
  | t :: rest =>
      if seen.contains t.phrase.lower then deduplicateTermsGo seen rest
      else t :: deduplicateTermsGo (t.phrase.lower :: seen) rest

def deduplicateTerms (terms : List GlossaryTerm) : List GlossaryTerm :=
  deduplicateTermsGo [] terms

/-- Column search of `_find_phrase_column` / `_find_definition_column`:
first keyword (in keyword priority order) that occurs as a substring of
some column name, then the first such column. -/
def findColumnBy : List String → List String → Option String
  | [], _ => Option.none
  | kw :: rest, cols =>
      match cols.find? (fun c => strContains c.lower kw) with
      | some c => some c
      | Option.none => findColumnBy rest cols

def phraseKeywords : List String :=
  ["phrase", "term", "word", "name", "title", "key"]

def definitionKeywords : List String :=
  ["definition", "description", "meaning", "explanation", "desc", "value"]

def findPhraseColumn (cols : List String) : Option String :=
  findColumnBy phraseKeywords cols

def findDefinitionColumn (cols : List String) : Option String :=
  findColumnBy definitionKeywords cols

/-- A raw record handed from an extractor to the validator. -/
structure RawTerm where
  phrase : String
  definition : String
  metadata : PyVal
deriving Repr

/-- A parsed CSV cell: `Option.none` models a pandas `NaN` (so `pd.notna`
is `isSome` and `str()` of the cell is `"nan"`). -/
def csvCellStr (c : Option String) : String :=
  match c with
  | some s => s
  | Option.none => "nan"

/-- `_extract_csv_terms` (processor.py lines 331-375) at the level of the
parsed table: normalize the header, locate the phrase and definition
columns, raise `ProcessingError` when either is missing, and otherwise
emit one raw record per row, skipping rows where both fields reduce to
empty/`nan`/`none` and collecting every other non-`NaN` column as
metadata. -/
def extractCsvTerms (rawCols : List String)
    (rows : List (List (Option String))) : Except String (List RawTerm) :=
  let cols := rawCols.map (fun c => c.strip.lower)
  match findPhraseColumn cols, findDefinitionColumn cols with
  | some pcol, some dcol =>
      let pIdx := cols.indexOf pcol
      let dIdx := cols.indexOf dcol
      .ok (rows.filterMap (fun row =>
        let phrase := (csvCellStr (row.getD pIdx Option.none)).strip
        let defn := (csvCellStr (row.getD dIdx Option.none)).strip
        if ["nan", "none", ""].contains phrase.lower &&
            ["nan", "none", ""].contains defn.lower then
          Option.none
        else
          some { phrase := phrase, definition := defn,
                 metadata := .dict (cols.enum.filterMap (fun (i, c) =>
                   if c ≠ pcol && c ≠ dcol then
                     match row.getD i Option.none with
                     | some v => some (c, .str v)
                     | Option.none => Option.none
                   else Option.none)) }))
  | _, _ =>
      .error ("Required columns not found. Available: [" ++
        String.intercalate ", " (cols.map (fun c => "\x27" ++ c ++ "\x27")) ++
        "]")

/-!
Concrete inputs used to instantiate the theorems below: a minimal valid
empty document, a document holding its terms as flat per-term resources
(the encoding used by the repository's own merger tests), and small term
lists, together with the documents and statistics the merge produces on
them.
-/

def fallbackStats : MergeStats :=
  { strategy := "", terms_provided := 0, terms_before := 0, terms_after := 0,
    terms_added := 0, terms_updated := 0, terms_removed := 0,
    glossary_entity_found := false, validation_passed := false,
    backup_created := false, timestamp := "" }

/-- A minimal valid document: empty entity list and empty resource list. -/
def exCfgEmpty : PyVal :=
  .dict [("analysisEntityList", .list []), ("resourceList", .list [])]

def c4run : Except MergeError (PyVal × MergeStats) :=
  mergeGlossaryTerms "T" "R" exCfgEmpty [] "overwrite"

def c4doc : PyVal :=
  match c4run with
  | .ok (d, _) => d
  | _ => .none

def c4stats : MergeStats :=
  match c4run with
  | .ok (_, s) => s
  | _ => fallbackStats

def c5terms : List GlossaryTerm := [⟨"A", "B.", .dict []⟩]

def c5run : Except MergeError (PyVal × MergeStats) :=
  mergeGlossaryTerms "T" "R" exCfgEmpty c5terms "merge"

def c5doc : PyVal :=
  match c5run with
  | .ok (d, _) => d
  | _ => .none

def c5stats : MergeStats :=
  match c5run with
  | .ok (_, s) => s
  | _ => fallbackStats

/-- Terms with a whitespace-padded phrase: accepted by the `GlossaryTerm`
constructor, but not fixed under the stripping the extraction applies. -/
def cxTerms : List GlossaryTerm := [⟨" A ", "B.", .dict []⟩]

def cxRun1 : Except MergeError (PyVal × MergeStats) :=
  mergeGlossaryTerms "T1" "R1" exCfgEmpty cxTerms "merge"

def cxDoc1 : PyVal :=
  match cxRun1 with
  | .ok (d, _) => d
  | _ => .none

def cxRun2 : Except MergeError (PyVal × MergeStats) :=
  mergeGlossaryTerms "T2" "R2" cxDoc1 cxTerms "merge"

def cxStats1 : MergeStats :=
  match cxRun1 with
  | .ok (_, s) => s
  | _ => fallbackStats

def cxStats2 : MergeStats :=
  match cxRun2 with
  | .ok (_, s) => s
  | _ => fallbackStats

def w3run1 : Except MergeError (PyVal × MergeStats) :=
  mergeGlossaryTerms "T1" "R1" exCfgEmpty c5terms "merge"

def w3doc1 : PyVal :=
  match w3run1 with
  | .ok (d, _) => d
  | _ => .none

def w3stats1 : MergeStats :=
  match w3run1 with
  | .ok (_, s) => s
  | _ => fallbackStats

def w3run2 : Except MergeError (PyVal × MergeStats) :=
  mergeGlossaryTerms "T2" "R2" w3doc1 c5terms "merge"

def w3doc2 : PyVal :=
  match w3run2 with
  | .ok (d, _) => d
  | _ => .none

def w3stats2 : MergeStats :=
  match w3run2 with
  | .ok (_, s) => s
  | _ => fallbackStats

/-- The terms already stored for the anchor entity as step 4 of a merge
call sees them (empty when the preparation steps fail). -/
def prepExisting (now : String) (cfg : PyVal) : List GlossaryTerm :=
  match mergePrep now cfg with
  | .ok (_, _, existing) => existing
  | _ => []

/-- A valid document storing its glossary in the flat per-term resource
encoding: the anchor references `resource-1`, which carries `phrase` and
`definition` directly (the shape used by `src/tests/test-merger.py`). -/
def flatDoc : PyVal := .dict [
  ("analysisEntityList", .list [
    .dict [("id", .str glossaryEntityId), ("name", .str "Glossary"),
           ("type", .str "glossary"), ("resources", .list [.str "resource-1"])]]),
  ("resourceList", .list [
    .dict [("id", .str "resource-1"), ("phrase", .str "API"),
           ("definition", .str "Application Programming Interface")]])]

def c2terms : List GlossaryTerm :=
  [⟨"REST", "Representational State Transfer.", .dict []⟩]

def c2run : Except MergeError (PyVal × MergeStats) :=
  mergeGlossaryTerms "T" "RID" flatDoc c2terms "merge"

def c2doc : PyVal :=
  match c2run with
  | .ok (d, _) => d
  | _ => .none

def c2stats : MergeStats :=
  match c2run with
  | .ok (_, s) => s
  | _ => fallbackStats

/-- The dedup example of the spec: three case-variants of one phrase with
distinct definitions. -/
def exDedupTerms : List GlossaryTerm :=
  [⟨"API", "d1", .dict []⟩, ⟨"api", "d2", .dict []⟩, ⟨"API", "d3", .dict []⟩]

/-!
Supporting lemmas.  First the dictionary primitives, then Python equality
on strings, then the term-merging combinators.
-/

theorem findPair_setPairs_self (ps : List (String × PyVal)) (k : String) (v : PyVal) :
    findPair k (setPairs ps k v) = some v := by
  induction ps with
  | nil => simp [setPairs, findPair]
  | cons p rest ih =>
      obtain ⟨k', v'⟩ := p
      by_cases h : k' = k
      · simp [setPairs, findPair, h]
      · simp [setPairs, findPair, h, ih]

theorem findPair_setPairs_ne (ps : List (String × PyVal)) (k k' : String) (v : PyVal)
    (h : k' ≠ k) : findPair k' (setPairs ps k v) = findPair k' ps := by
  have hne : ¬k = k' := fun he => h he.symm
  induction ps with
  | nil => simp [setPairs, findPair, hne]
  | cons p rest ih =>
      obtain ⟨k₀, v₀⟩ := p
      by_cases hk : k₀ = k
      · subst hk
        simp [setPairs, findPair, hne]
      · simp [setPairs, findPair, hk, ih]

theorem dget_dset_self (ps : List (String × PyVal)) (k : String) (v : PyVal) :
    dget (dset (.dict ps) k v) k = some v := by
  simp [dset, dget, findPair_setPairs_self]

theorem dget_dset_ne (ps : List (String × PyVal)) (k k' : String) (v : PyVal)
    (h : k' ≠ k) : dget (dset (.dict ps) k v) k' = dget (.dict ps) k' := by
  simp [dset, dget, findPair_setPairs_ne _ _ _ _ h]

theorem pyEq_str_right (x : PyVal) (s : String) :
    pyEq x (.str s) = true ↔ x = .str s := by
  cases x <;> simp [pyEq]

theorem pyEq_str_left (x : PyVal) (s : String) :
    pyEq (.str s) x = true ↔ x = .str s := by
  cases x <;> simp [pyEq, eq_comm]

theorem length_updateFirstMatch (t : GlossaryTerm) (l : List GlossaryTerm) :
    (updateFirstMatch t l).length = l.length := by
  induction l with
  | nil => rfl
  | cons u rest ih =>
      by_cases h : u.phrase.lower == t.phrase.lower
      · simp [updateFirstMatch, h]
      · simp [updateFirstMatch, h, ih]

theorem mem_updateFirstMatch (t u : GlossaryTerm) (l : List GlossaryTerm)
    (h : u ∈ updateFirstMatch t l) : u ∈ l ∨ u = t := by
  induction l with
  | nil => simp [updateFirstMatch] at h
  | cons v rest ih =>
      by_cases hv : v.phrase.lower == t.phrase.lower
      · simp [updateFirstMatch, hv] at h
        rcases h with h | h
        · exact Or.inr h
        · exact Or.inl (List.mem_cons_of_mem _ h)
      · simp [updateFirstMatch, hv] at h
        rcases h with h | h
        · exact Or.inl (by simp [h])
        · rcases ih h with h' | h'
          · exact Or.inl (List.mem_cons_of_mem _ h')
          · exact Or.inr h'

theorem lower_mem_updateFirstMatch (t : GlossaryTerm) (l : List GlossaryTerm)
    (x : String) (h : x ∈ l.map (fun u => u.phrase.lower)) :
    x ∈ (updateFirstMatch t l).map (fun u => u.phrase.lower) := by
  induction l with
  | nil => simp at h
  | cons v rest ih =>
      by_cases hv : v.phrase.lower == t.phrase.lower
      · have hv' : v.phrase.lower = t.phrase.lower := by
          simpa using hv
        simp [updateFirstMatch, hv] at h ⊢
        rcases h with h | h
        · exact Or.inl (by rw [h, hv'])
        · exact Or.inr h
      · simp [updateFirstMatch, hv] at h ⊢
        rcases h with h | h
        · exact Or.inl h
        · exact Or.inr (by simpa using ih (by simpa using h))

theorem mergeTermsGo_length (L : List String) (ts acc : List GlossaryTerm) :
    (mergeTermsGo L acc ts).length =
      acc.length + (ts.filter (fun t => !L.contains t.phrase.lower)).length := by
  induction ts generalizing acc with
  | nil => simp [mergeTermsGo]
  | cons t rest ih =>
      by_cases h : t.phrase.lower ∈ L
      · simp [mergeTermsGo, h, ih, length_updateFirstMatch]
      · simp [mergeTermsGo, h, ih]
        omega

theorem mergeTermsGo_mem (L : List String) (ts acc : List GlossaryTerm)
    (u : GlossaryTerm) (h : u ∈ mergeTermsGo L acc ts) : u ∈ acc ∨ u ∈ ts := by
  induction ts generalizing acc with
  | nil => exact Or.inl (by simpa [mergeTermsGo] using h)
  | cons t rest ih =>
      by_cases ht : t.phrase.lower ∈ L
      · rw [mergeTermsGo, if_pos (by simpa using ht)] at h
        rcases ih _ h with h' | h'
        · rcases mem_updateFirstMatch t u _ h' with h'' | h''
          · exact Or.inl h''
          · exact Or.inr (by simp [h''])
        · exact Or.inr (List.mem_cons_of_mem _ h')
      · rw [mergeTermsGo, if_neg (by simpa using ht)] at h
        rcases ih _ h with h' | h'
        · rcases List.mem_append.mp h' with h'' | h''
          · exact Or.inl h''
          · have hu : u = t := List.mem_singleton.mp h''
            subst hu
            exact Or.inr (List.mem_cons_self _ _)
        · exact Or.inr (List.mem_cons_of_mem _ h')

theorem mergeTermsGo_lower_mem (L : List String) (ts acc : List GlossaryTerm)
    (hL : ∀ x ∈ L, x ∈ acc.map (fun u => u.phrase.lower)) (x : String)
    (h : x ∈ acc.map (fun u => u.phrase.lower) ∨
         x ∈ ts.map (fun u => u.phrase.lower)) :
    x ∈ (mergeTermsGo L acc ts).map (fun u => u.phrase.lower) := by
  induction ts generalizing acc with
  | nil =>
      rcases h with h | h
      · simpa [mergeTermsGo] using h
      · simp at h
  | cons t rest ih =>
      by_cases ht : t.phrase.lower ∈ L
      · have hmem : t.phrase.lower ∈ acc.map (fun u => u.phrase.lower) :=
          hL _ ht
        rw [mergeTermsGo, if_pos (by simpa using ht)]
        refine ih _ (fun y hy => lower_mem_updateFirstMatch _ _ _ (hL y hy)) ?_
        rcases h with h | h
        · exact Or.inl (lower_mem_updateFirstMatch _ _ _ h)
        · simp only [List.map_cons, List.mem_cons] at h
          rcases h with h | h
          · exact Or.inl (lower_mem_updateFirstMatch _ _ _ (h ▸ hmem))
          · exact Or.inr h
      · rw [mergeTermsGo, if_neg (by simpa using ht)]
        refine ih _ (fun y hy => ?_) ?_
        · simpa using Or.inl (hL y hy)
        · rcases h with h | h
          · exact Or.inl (by simpa using Or.inl h)
          · simp only [List.map_cons, List.mem_cons] at h
            rcases h with h | h
            · exact Or.inl (by simp [h])
            · exact Or.inr h

theorem mergeTerms_length (ex ts : List GlossaryTerm) :
    (mergeTerms ex ts).length = ex.length + countNewTerms ex ts := by
  simp [mergeTerms, countNewTerms, mergeTermsGo_length]

theorem mergeTerms_mem (ex ts : List GlossaryTerm) (u : GlossaryTerm)
    (h : u ∈ mergeTerms ex ts) : u ∈ ex ∨ u ∈ ts :=
  mergeTermsGo_mem _ _ _ _ h

theorem mergeTerms_lower_mem (ex ts : List GlossaryTerm) (x : String)
    (h : x ∈ ex.map (fun u => u.phrase.lower) ∨
         x ∈ ts.map (fun u => u.phrase.lower)) :
    x ∈ (mergeTerms ex ts).map (fun u => u.phrase.lower) := by
  refine mergeTermsGo_lower_mem _ _ _ (fun y hy => by simpa using hy) x h

theorem mergeTerms_ne_nil (ex ts : List GlossaryTerm) (h : ts ≠ []) :
    mergeTerms ex ts ≠ [] := by
  intro hc
  have hlen := mergeTerms_length ex ts
  rw [hc] at hlen
  simp only [List.length_nil] at hlen
  have hex : ex.length = 0 := by omega
  have hcount : countNewTerms ex ts = 0 := by omega
  have hex' : ex = [] := List.length_eq_zero.mp hex
  subst hex'
  unfold countNewTerms at hcount
  simp at hcount
  exact h hcount

/-!
Inversion lemmas for the validator: a validation that reports no error
pins down the facts the merge correctness arguments need (the document is
a dict, all resources are dicts, and a truthy last resource id does not
clash with any earlier resource id).
-/

theorem validateConfiguration_true_iff (cfg : PyVal) :
    (validateConfiguration cfg).1 = true ↔ validateConfigurationBody cfg = .ok [] := by
  unfold validateConfiguration
  cases h : validateConfigurationBody cfg with
  | ok errs => simp [List.isEmpty_iff]
  | error e => simp

theorem validateConfiguration_true_isDict (cfg : PyVal)
    (h : (validateConfiguration cfg).1 = true) : cfg.isDict = true := by
  have hb := (validateConfiguration_true_iff cfg).mp h
  by_cases hd : cfg.isDict
  · exact hd
  · rw [validateConfigurationBody] at hb
    simp [hd] at hb

theorem validateBody_resourcePart (cfg : PyVal) (v : PyVal)
    (h : validateConfigurationBody cfg = .ok [])
    (hv : dget cfg "resourceList" = some v) :
    validateResourceList v = .ok [] := by
  rw [validateConfigurationBody] at h
  by_cases hd : cfg.isDict
  · simp only [hd, Bool.not_true, Bool.false_eq_true, if_neg, not_false_iff] at h
    cases hE : (match dget cfg "analysisEntityList" with
      | some v => validateEntityList v
      | Option.none => .ok []) with
    | error e => simp only [hE] at h; exact Except.noConfusion h
    | ok entityErrs =>
        simp only [hE, hv] at h
        cases hR : validateResourceList v with
        | error e => simp only [hR] at h; exact Except.noConfusion h
        | ok resourceErrs =>
            simp only [hR] at h
            cases hC : validateCrossReferences cfg with
            | error e => simp only [hC] at h; exact Except.noConfusion h
            | ok crossErrs =>
                simp only [hC, Except.ok.injEq, List.append_eq_nil] at h
                rw [h.1.2]
  · simp [hd] at h

theorem validateResourceList_ok_go (rs : List PyVal)
    (h : validateResourceList (.list rs) = .ok []) :
    validateResourceListGo 0 [] rs = .ok [] := by
  rw [validateResourceList] at h
  cases hg : validateResourceListGo 0 [] rs with
  | error e => simp only [hg] at h; exact Except.noConfusion h
  | ok errs =>
      simp only [hg, Except.ok.injEq, List.append_eq_nil] at h
      rw [h.2]

theorem validateResourceStep_nil (i : Nat) (seen seen' : List PyVal) (r : PyVal)
    (h : validateResourceStep i seen r = .ok ([], seen')) :
    r.isDict = true ∧
    ((pyTruthy (dgetD r "id" .none) = true ∧
        (seen.any (fun y => pyEq (dgetD r "id" .none) y)) = false ∧
        seen' = dgetD r "id" .none :: seen) ∨
     (pyTruthy (dgetD r "id" .none) = false ∧ seen' = seen)) := by
  rw [validateResourceStep] at h
  by_cases hd : r.isDict
  · refine ⟨hd, ?_⟩
    simp only [hd, Bool.not_true, Bool.false_eq_true, if_neg, not_false_iff] at h
    by_cases ht : pyTruthy (dgetD r "id" .none)
    · simp only [ht, if_pos] at h
      unfold pyMemSet at h
      by_cases hh : pyHashable (dgetD r "id" .none)
      · simp only [hh, if_pos] at h
        by_cases hdup : (seen.any (fun y => pyEq (dgetD r "id" .none) y)) = true
        · simp only [hdup, if_pos] at h
          simp at h
        · simp only [Bool.not_eq_true] at hdup
          simp only [hdup, Bool.false_eq_true, if_neg, not_false_iff] at h
          simp only [Except.ok.injEq, Prod.mk.injEq, List.append_eq_nil] at h
          exact Or.inl ⟨ht, hdup, h.2.symm⟩
      · simp only [hh, Bool.false_eq_true, if_neg, not_false_iff] at h
        exact absurd h (by simp)
    · simp only [Bool.not_eq_true] at ht
      simp only [ht, Bool.false_eq_true, if_neg, not_false_iff] at h
      simp only [Except.ok.injEq, Prod.mk.injEq, List.append_eq_nil] at h
      exact Or.inr ⟨ht, h.2.symm⟩
  · simp only [Bool.not_eq_true] at hd
    simp only [hd, Bool.not_false, if_pos] at h
    simp at h

theorem resourceGo_nil_head (i : Nat) (seen : List PyVal) (r : PyVal)
    (rest : List PyVal)
    (h : validateResourceListGo i seen (r :: rest) = .ok []) :
    ∃ seen', validateResourceStep i seen r = .ok ([], seen') ∧
      validateResourceListGo (i + 1) seen' rest = .ok [] := by
  rw [validateResourceListGo] at h
  cases hs : validateResourceStep i seen r with
  | error e => simp only [hs] at h; exact Except.noConfusion h
  | ok p =>
      obtain ⟨errs, seen'⟩ := p
      simp only [hs] at h
      cases hg : validateResourceListGo (i + 1) seen' rest with
      | error e => simp only [hg] at h; exact Except.noConfusion h
      | ok more =>
          simp only [hg, Except.ok.injEq, List.append_eq_nil] at h
          exact ⟨seen', by rw [h.1], by rw [hg, h.2]⟩

theorem resourceGo_all_dict (l : List PyVal) :
    ∀ (i : Nat) (seen : List PyVal),
      validateResourceListGo i seen l = .ok [] →
      ∀ r ∈ l, r.isDict = true := by
  induction l with
  | nil => intro i seen _ r hr; simp at hr
  | cons r₀ rest ih =>
      intro i seen h r hr
      obtain ⟨seen', hstep, hrest⟩ := resourceGo_nil_head i seen r₀ rest h
      rcases List.mem_cons.mp hr with hr | hr
      · subst hr
        exact (validateResourceStep_nil i seen seen' r hstep).1
      · exact ih (i + 1) seen' hrest r hr

theorem resourceGo_last_not_dup (l : List PyVal) :
    ∀ (i : Nat) (seen : List PyVal) (r : PyVal),
      validateResourceListGo i seen (l ++ [r]) = .ok [] →
      pyTruthy (dgetD r "id" .none) = true →
      (∀ y ∈ seen, pyEq (dgetD r "id" .none) y = false) ∧
      (∀ r' ∈ l, pyTruthy (dgetD r' "id" .none) = true →
        pyEq (dgetD r "id" .none) (dgetD r' "id" .none) = false) := by
  induction l with
  | nil =>
      intro i seen r h ht
      obtain ⟨seen', hstep, _⟩ := resourceGo_nil_head i seen r [] (by simpa using h)
      obtain ⟨_, hcase⟩ := validateResourceStep_nil i seen seen' r hstep
      rcases hcase with ⟨_, hany, _⟩ | ⟨ht', _⟩
      · refine ⟨fun y hy => ?_, fun r' hr' => by simp at hr'⟩
        by_contra hne
        simp only [Bool.not_eq_false] at hne
        exact absurd hany (by simp [List.any_eq_true]; exact ⟨y, hy, hne⟩)
      · rw [ht] at ht'; exact absurd ht' (by simp)
  | cons r₀ rest ih =>
      intro i seen r h ht
      obtain ⟨seen', hstep, hrest⟩ :=
        resourceGo_nil_head i seen r₀ (rest ++ [r]) (by simpa using h)
      obtain ⟨_, hcase⟩ := validateResourceStep_nil i seen seen' r₀ hstep
      rcases hcase with ⟨ht₀, _, hseen'⟩ | ⟨ht₀, hseen'⟩
      · subst hseen'
        obtain ⟨hseenPart, hrestPart⟩ := ih (i + 1) _ r hrest ht
        refine ⟨fun y hy => hseenPart y (List.mem_cons_of_mem _ hy), ?_⟩
        intro r' hr' htr'
        rcases List.mem_cons.mp hr' with hr' | hr'
        · subst hr'
          exact hseenPart _ (List.mem_cons_self _ _)
        · exact hrestPart r' hr' htr'
      · subst hseen'
        obtain ⟨hseenPart, hrestPart⟩ := ih (i + 1) _ r hrest ht
        refine ⟨hseenPart, ?_⟩
        intro r' hr' htr'
        rcases List.mem_cons.mp hr' with hr' | hr'
        · subst hr'
          rw [htr'] at ht₀; exact absurd ht₀ (by simp)
        · exact hrestPart r' hr' htr'

/-!
Lemmas about the anchor-entity scan: the scan index is in range, matching
is untouched by updates to keys other than `id`/`name`/`type`, and the
scan result survives replacing the matched entity by a still-matching one
or appending a matching entity after an unsuccessful scan.
-/

theorem entityMatches_isDict (e : PyVal) (b : Bool)
    (h : entityMatches e = .ok b) : e.isDict = true := by
  by_cases hd : e.isDict
  · exact hd
  · rw [entityMatches] at h
    simp [hd] at h

theorem entityMatches_dset (ps : List (String × PyVal)) (k : String) (v : PyVal)
    (h1 : k ≠ "id") (h2 : k ≠ "name") (h3 : k ≠ "type") :
    entityMatches (dset (.dict ps) k v) = entityMatches (.dict ps) := by
  have hid : dget (dset (.dict ps) k v) "id" = dget (.dict ps) "id" :=
    dget_dset_ne ps k "id" v (fun he => h1 he.symm)
  have hnm : dget (dset (.dict ps) k v) "name" = dget (.dict ps) "name" :=
    dget_dset_ne ps k "name" v (fun he => h2 he.symm)
  have hty : dget (dset (.dict ps) k v) "type" = dget (.dict ps) "type" :=
    dget_dset_ne ps k "type" v (fun he => h3 he.symm)
  have hdd : (dset (.dict ps) k v).isDict = true := by simp [dset, PyVal.isDict]
  have hd2 : (PyVal.dict ps).isDict = true := rfl
  rw [entityMatches, entityMatches]
  simp only [hdd, hd2, dgetD, hid, hnm, hty]

theorem scan_some_lt (es : List PyVal) (i : Nat)
    (h : scanForGlossary es = .ok (some i)) : i < es.length := by
  induction es generalizing i with
  | nil => rw [scanForGlossary] at h; exact absurd h (by simp)
  | cons e rest ih =>
      rw [scanForGlossary] at h
      cases hm : entityMatches e with
      | error err => simp only [hm] at h; exact Except.noConfusion h
      | ok b =>
          cases b with
          | true =>
              simp only [hm, Except.ok.injEq, Option.some.injEq] at h
              simp [← h]
          | false =>
              simp only [hm] at h
              cases hs : scanForGlossary rest with
              | error err => simp only [hs] at h; exact Except.noConfusion h
              | ok o =>
                  cases o with
                  | some j =>
                      simp only [hs, Except.ok.injEq, Option.some.injEq] at h
                      have := ih j hs
                      simp [← h]
                      omega
                  | none => simp only [hs] at h; simp at h

theorem scan_set_preserve (es : List PyVal) (i : Nat) (e' : PyVal)
    (h : scanForGlossary es = .ok (some i)) (h' : entityMatches e' = .ok true) :
    scanForGlossary (es.set i e') = .ok (some i) := by
  induction es generalizing i with
  | nil => rw [scanForGlossary] at h; exact absurd h (by simp)
  | cons e rest ih =>
      rw [scanForGlossary] at h
      cases hm : entityMatches e with
      | error err => simp only [hm] at h; exact Except.noConfusion h
      | ok b =>
          cases b with
          | true =>
              simp only [hm, Except.ok.injEq, Option.some.injEq] at h
              subst h
              simp only [List.set]
              rw [scanForGlossary, h']
          | false =>
              simp only [hm] at h
              cases hs : scanForGlossary rest with
              | error err => simp only [hs] at h; exact Except.noConfusion h
              | ok o =>
                  cases o with
                  | some j =>
                      simp only [hs, Except.ok.injEq, Option.some.injEq] at h
                      subst h
                      simp only [List.set]
                      rw [scanForGlossary, hm, ih j hs]
                  | none => simp only [hs] at h; simp at h

theorem scan_append_last (es : List PyVal) (e' : PyVal)
    (h : scanForGlossary es = .ok Option.none)
    (h' : entityMatches e' = .ok true) :
    scanForGlossary (es ++ [e']) = .ok (some es.length) := by
  induction es with
  | nil =>
      simp only [List.nil_append, List.length_nil]
      rw [scanForGlossary, h']
  | cons e rest ih =>
      rw [scanForGlossary] at h
      cases hm : entityMatches e with
      | error err => simp only [hm] at h; exact Except.noConfusion h
      | ok b =>
          cases b with
          | true => simp only [hm] at h; simp at h
          | false =>
              simp only [hm] at h
              cases hs : scanForGlossary rest with
              | error err => simp only [hs] at h; exact Except.noConfusion h
              | ok o =>
                  cases o with
                  | some j => simp only [hs] at h; simp at h
                  | none =>
                      simp only [List.cons_append]
                      rw [scanForGlossary, hm, ih hs]
                      simp

theorem newGlossaryEntity_matches (now : String) (n : Nat) :
    entityMatches (newGlossaryEntity now n) = .ok true := by
  rw [entityMatches]
  simp [newGlossaryEntity, PyVal.isDict, dgetD, dget, findPair, pyEq]

theorem findOrCreate_ok (now : String) (cfg cfg₁ : PyVal) (i : Nat)
    (hd : cfg.isDict = true)
    (h : findOrCreateGlossaryEntity now cfg = .ok (cfg₁, i)) :
    ∃ es₁, dget cfg₁ "analysisEntityList" = some (.list es₁) ∧
      scanForGlossary es₁ = .ok (some i) ∧ i < es₁.length ∧
      cfg₁.isDict = true ∧
      (∀ k, k ≠ "analysisEntityList" → dget cfg₁ k = dget cfg k) := by
  obtain ⟨ps, rfl⟩ : ∃ ps, cfg = .dict ps := by
    cases cfg <;> simp [PyVal.isDict] at hd
    exact ⟨_, rfl⟩
  have hgo : ∀ es, dget (.dict ps) "analysisEntityList" = some (.list es) ∨ es = [] →
      findOrCreateGlossaryEntityGo now (.dict ps) es = .ok (cfg₁, i) →
      ∃ es₁, dget cfg₁ "analysisEntityList" = some (.list es₁) ∧
        scanForGlossary es₁ = .ok (some i) ∧ i < es₁.length ∧
        cfg₁.isDict = true ∧
        (∀ k, k ≠ "analysisEntityList" → dget cfg₁ k = dget (.dict ps) k) := by
    intro es hes hg
    rw [findOrCreateGlossaryEntityGo] at hg
    cases hs : scanForGlossary es with
    | error err => simp only [hs] at hg; exact Except.noConfusion hg
    | ok o =>
        cases o with
        | some j =>
            simp only [hs, Except.ok.injEq, Prod.mk.injEq] at hg
            obtain ⟨rfl, rfl⟩ := hg
            rcases hes with hes | rfl
            · exact ⟨es, hes, hs, scan_some_lt es _ hs, hd, fun _ _ => rfl⟩
            · rw [scanForGlossary] at hs; exact absurd hs (by simp)
        | none =>
            simp only [hs, Except.ok.injEq, Prod.mk.injEq] at hg
            obtain ⟨rfl, rfl⟩ := hg
            refine ⟨es ++ [newGlossaryEntity now es.length],
              dget_dset_self _ _ _,
              scan_append_last es _ hs (newGlossaryEntity_matches now es.length),
              by simp, by simp [dset, PyVal.isDict],
              fun k hk => dget_dset_ne _ _ _ _ hk⟩
  rw [findOrCreateGlossaryEntity] at h
  cases hA : dget (.dict ps) "analysisEntityList" with
  | none =>
      simp only [hA] at h
      exact hgo [] (Or.inr rfl) h
  | some v =>
      cases v with
      | list es =>
          simp only [hA] at h
          exact hgo es (Or.inl hA) h
      | str s => simp only [hA] at h; exact Except.noConfusion h
      | int n => simp only [hA] at h; exact Except.noConfusion h
      | bool b => simp only [hA] at h; exact Except.noConfusion h
      | none => simp only [hA] at h; exact Except.noConfusion h
      | dict ps' => simp only [hA] at h; exact Except.noConfusion h

/-!
Inversion of `_update_configuration_with_terms`: on success the rewritten
document consists of the surviving (filtered) resources plus, when terms
were written, the single fresh bundle resource, with the anchor entity
re-pointed accordingly.
-/

theorem pyHashList_ok_iter (v : PyVal) (xs : List PyVal)
    (h : pyHashList v = .ok xs) : pyIter v = .ok xs := by
  rw [pyHashList] at h
  cases hi : pyIter v with
  | error e => simp only [hi] at h; exact Except.noConfusion h
  | ok ys =>
      simp only [hi] at h
      by_cases ha : ys.all pyHashable
      · simp only [ha, if_pos, Except.ok.injEq] at h
        rw [h]
      · simp only [ha, Bool.false_eq_true, if_neg, not_false_iff] at h
        exact Except.noConfusion h

theorem filterResourcesGo_mem (oldIds : List PyVal) (l filtered : List PyVal)
    (h : filterResourcesGo oldIds l = .ok filtered) :
    ∀ r ∈ filtered, r ∈ l ∧ r.isDict = true ∧
      pyMemSet (dgetD r "id" .none) oldIds = .ok false := by
  induction l generalizing filtered with
  | nil =>
      rw [filterResourcesGo] at h
      simp only [Except.ok.injEq] at h
      subst h
      intro r hr
      simp at hr
  | cons r₀ rest ih =>
      rw [filterResourcesGo] at h
      by_cases hd : r₀.isDict
      · simp only [hd, Bool.not_true, Bool.false_eq_true, if_neg, not_false_iff] at h
        cases hm : pyMemSet (dgetD r₀ "id" .none) oldIds with
        | error e => simp only [hm] at h; exact Except.noConfusion h
        | ok b =>
            cases b with
            | true =>
                simp only [hm] at h
                intro r hr
                obtain ⟨hmem, hdict, hset⟩ := ih filtered h r hr
                exact ⟨List.mem_cons_of_mem _ hmem, hdict, hset⟩
            | false =>
                simp only [hm] at h
                cases hf : filterResourcesGo oldIds rest with
                | error e => simp only [hf] at h; exact Except.noConfusion h
                | ok fs =>
                    simp only [hf, Except.ok.injEq] at h
                    subst h
                    intro r hr
                    rcases List.mem_cons.mp hr with hr | hr
                    · subst hr
                      exact ⟨List.mem_cons_self _ _, hd, hm⟩
                    · obtain ⟨hmem, hdict, hset⟩ := ih fs hf r hr
                      exact ⟨List.mem_cons_of_mem _ hmem, hdict, hset⟩
      · simp only [Bool.not_eq_true] at hd
        simp only [hd, Bool.not_false, if_pos] at h
        exact Except.noConfusion h


theorem isDict_dset (d : PyVal) (k : String) (v : PyVal) :
    (dset d k v).isDict = d.isDict := by
  cases d <;> simp [dset, PyVal.isDict]

theorem dget_dset_self' (d : PyVal) (hd : d.isDict = true) (k : String) (v : PyVal) :
    dget (dset d k v) k = some v := by
  obtain ⟨ps, rfl⟩ : ∃ ps, d = .dict ps := by
    cases d <;> simp [PyVal.isDict] at hd
    exact ⟨_, rfl⟩
  exact dget_dset_self ps k v

theorem dget_dset_ne' (d : PyVal) (hd : d.isDict = true) (k k' : String) (v : PyVal)
    (h : k' ≠ k) : dget (dset d k v) k' = dget d k' := by
  obtain ⟨ps, rfl⟩ : ∃ ps, d = .dict ps := by
    cases d <;> simp [PyVal.isDict] at hd
    exact ⟨_, rfl⟩
  exact dget_dset_ne ps k k' v h

theorem filter_iter_pyValList (oldIds : List PyVal) (v : PyVal)
    (items filtered : List PyVal) (hI : pyIter v = .ok items)
    (hF : filterResourcesGo oldIds items = .ok filtered) :
    filterResourcesGo oldIds (pyValList v) = .ok filtered := by
  cases v with
  | list l =>
      rw [pyIter] at hI
      simp only [Except.ok.injEq] at hI
      show filterResourcesGo oldIds l = .ok filtered
      rw [hI]; exact hF
  | str s =>
      rw [pyIter] at hI
      simp only [Except.ok.injEq] at hI
      cases hs : s.toList with
      | nil =>
          rw [hs] at hI
          simp only [List.map_nil] at hI
          rw [← hI] at hF
          show filterResourcesGo oldIds [] = .ok filtered
          exact hF
      | cons c cs =>
          rw [hs] at hI
          simp only [List.map_cons] at hI
          rw [← hI] at hF
          rw [filterResourcesGo] at hF
          simp [PyVal.isDict] at hF
  | dict ps =>
      rw [pyIter] at hI
      simp only [Except.ok.injEq] at hI
      cases ps with
      | nil =>
          simp only [List.map_nil] at hI
          rw [← hI] at hF
          show filterResourcesGo oldIds [] = .ok filtered
          exact hF
      | cons p rest =>
          simp only [List.map_cons] at hI
          rw [← hI] at hF
          rw [filterResourcesGo] at hF
          simp [PyVal.isDict] at hF
  | int n => simp [pyIter] at hI
  | bool b => simp [pyIter] at hI
  | none => simp [pyIter] at hI

theorem setAnchorEntity_spec (now : String) (i : Nat) (X refs : PyVal)
    (es : List PyVal) (hX : dget X "analysisEntityList" = some (.list es))
    (hXd : X.isDict = true) :
    dget (setAnchorEntity now i X refs) "analysisEntityList" =
      some (.list (es.set i (dset (dset (es.getD i (.dict [])) "resources" refs)
        "updated" (.str now)))) ∧
    (∀ k, k ≠ "analysisEntityList" →
      dget (setAnchorEntity now i X refs) k = dget X k) ∧
    (setAnchorEntity now i X refs).isDict = true := by
  rw [setAnchorEntity]
  simp only [hX]
  exact ⟨dget_dset_self' X hXd _ _,
    fun k hk => dget_dset_ne' X hXd _ k _ hk,
    by rw [isDict_dset]; exact hXd⟩

theorem update_ok (now rid : String) (cfg cfg₂ : PyVal) (i : Nat)
    (terms : List GlossaryTerm) (es : List PyVal)
    (hd : cfg.isDict = true)
    (hes : dget cfg "analysisEntityList" = some (.list es))
    (h : updateConfigurationWithTerms now rid cfg i terms = .ok cfg₂) :
    ∃ oldIds filtered,
      pyHashList (dgetD (es.getD i (.dict [])) "resources" (.list [])) = .ok oldIds ∧
      filterResourcesGo oldIds (listResources cfg) = .ok filtered ∧
      dget cfg₂ "analysisEntityList" = some (.list (es.set i
        (dset (dset (es.getD i (.dict [])) "resources"
          (if terms.isEmpty then .list [] else .list [.str rid]))
          "updated" (.str now)))) ∧
      dget cfg₂ "resourceList" = some (.list (filtered ++
        (if terms.isEmpty then [] else [mkGlossaryResource now rid terms]))) ∧
      cfg₂.isDict = true := by
  rw [updateConfigurationWithTerms] at h
  by_cases hk : hasKey cfg "resourceList"
  case pos =>
    obtain ⟨v, hv⟩ : ∃ v, dget cfg "resourceList" = some v := by
      rw [hasKey] at hk
      cases hvv : dget cfg "resourceList" with
      | none => rw [hvv] at hk; simp at hk
      | some v => exact ⟨v, rfl⟩
    simp only [hk, if_pos, hes] at h
    cases hH : pyHashList (dgetD (es.getD i (.dict [])) "resources" (.list [])) with
    | error e => simp only [hH] at h; exact Except.noConfusion h
    | ok oldIds =>
        simp only [hH] at h
        have hvd : dgetD cfg "resourceList" (.list []) = v := by
          rw [dgetD, hv]; rfl
        rw [hvd] at h
        cases hI : pyIter v with
        | error e => simp only [hI] at h; exact Except.noConfusion h
        | ok items =>
            simp only [hI] at h
            cases hF : filterResourcesGo oldIds items with
            | error e => simp only [hF] at h; exact Except.noConfusion h
            | ok filtered =>
                simp only [hF] at h
                have hLR : filterResourcesGo oldIds (listResources cfg) = .ok filtered := by
                  rw [listResources, hv]
                  exact filter_iter_pyValList oldIds v items filtered hI hF
                by_cases ht : terms.isEmpty
                · simp only [ht, if_pos, Except.ok.injEq] at h
                  subst h
                  have hXes : dget (dset cfg "resourceList" (.list filtered))
                      "analysisEntityList" = some (.list es) := by
                    rw [dget_dset_ne' cfg hd _ _ _ (by decide)]; exact hes
                  have hXd : (dset cfg "resourceList" (.list filtered)).isDict = true := by
                    rw [isDict_dset]; exact hd
                  obtain ⟨hA, hK, hD⟩ := setAnchorEntity_spec now i _ (.list []) es hXes hXd
                  refine ⟨oldIds, filtered, rfl, hLR, ?_, ?_, hD⟩
                  · rw [hA]; simp [ht]
                  · rw [hK "resourceList" (by decide),
                      dget_dset_self' cfg hd]
                    simp [ht]
                · simp only [ht, Bool.false_eq_true, if_neg, not_false_iff,
                    Except.ok.injEq] at h
                  subst h
                  have hXes : dget (dset cfg "resourceList"
                      (.list (filtered ++ [mkGlossaryResource now rid terms])))
                      "analysisEntityList" = some (.list es) := by
                    rw [dget_dset_ne' cfg hd _ _ _ (by decide)]; exact hes
                  have hXd : (dset cfg "resourceList"
                      (.list (filtered ++ [mkGlossaryResource now rid terms]))).isDict
                      = true := by
                    rw [isDict_dset]; exact hd
                  obtain ⟨hA, hK, hD⟩ :=
                    setAnchorEntity_spec now i _ (.list [.str rid]) es hXes hXd
                  refine ⟨oldIds, filtered, rfl, hLR, ?_, ?_, hD⟩
                  · rw [hA]; simp [ht]
                  · rw [hK "resourceList" (by decide),
                      dget_dset_self' cfg hd]
                    simp [ht]
  case neg =>
    have hnone : dget cfg "resourceList" = Option.none := by
      rw [hasKey] at hk
      cases hvv : dget cfg "resourceList" with
      | none => rfl
      | some v => rw [hvv] at hk; simp at hk
    have hC1d : (dset cfg "resourceList" (.list [])).isDict = true := by
      rw [isDict_dset]; exact hd
    have hC1es : dget (dset cfg "resourceList" (.list []))
        "analysisEntityList" = some (.list es) := by
      rw [dget_dset_ne' cfg hd _ _ _ (by decide)]; exact hes
    simp only [hk, Bool.false_eq_true, if_neg, not_false_iff, hC1es] at h
    cases hH : pyHashList (dgetD (es.getD i (.dict [])) "resources" (.list [])) with
    | error e => simp only [hH] at h; exact Except.noConfusion h
    | ok oldIds =>
        simp only [hH] at h
        have hvd : dgetD (dset cfg "resourceList" (.list []))
            "resourceList" (.list []) = .list [] := by
          rw [dgetD, dget_dset_self' cfg hd]; rfl
        rw [hvd] at h
        have hI : pyIter (PyVal.list []) = .ok [] := rfl
        simp only [hI] at h
        have hF0 : filterResourcesGo oldIds [] = .ok [] := rfl
        simp only [hF0] at h
        have hLR : filterResourcesGo oldIds (listResources cfg) = .ok [] := by
          rw [listResources, hnone]
          exact hF0
        by_cases ht : terms.isEmpty
        · simp only [ht, if_pos, Except.ok.injEq] at h
          subst h
          have hXes : dget (dset (dset cfg "resourceList" (.list []))
              "resourceList" (.list [])) "analysisEntityList" = some (.list es) := by
            rw [dget_dset_ne' _ hC1d _ _ _ (by decide)]; exact hC1es
          have hXd : (dset (dset cfg "resourceList" (.list []))
              "resourceList" (.list [])).isDict = true := by
            rw [isDict_dset]; exact hC1d
          obtain ⟨hA, hK, hD⟩ := setAnchorEntity_spec now i _ (.list []) es hXes hXd
          refine ⟨oldIds, [], rfl, hLR, ?_, ?_, hD⟩
          · rw [hA]; simp [ht]
          · rw [hK "resourceList" (by decide), dget_dset_self' _ hC1d]
            simp [ht]
        · simp only [ht, Bool.false_eq_true, if_neg, not_false_iff,
            Except.ok.injEq] at h
          subst h
          have hXes : dget (dset (dset cfg "resourceList" (.list []))
              "resourceList" (.list ([] ++ [mkGlossaryResource now rid terms])))
              "analysisEntityList" = some (.list es) := by
            rw [dget_dset_ne' _ hC1d _ _ _ (by decide)]; exact hC1es
          have hXd : (dset (dset cfg "resourceList" (.list []))
              "resourceList" (.list ([] ++ [mkGlossaryResource now rid terms]))).isDict
              = true := by
            rw [isDict_dset]; exact hC1d
          obtain ⟨hA, hK, hD⟩ :=
            setAnchorEntity_spec now i _ (.list [.str rid]) es hXes hXd
          refine ⟨oldIds, [], rfl, hLR, ?_, ?_, hD⟩
          · rw [hA]; simp [ht]
          · rw [hK "resourceList" (by decide), dget_dset_self' _ hC1d]
            simp [ht]

/-!
Inversion of a successful `merge_glossary_terms` call: the strategy guard
and input validation passed, the anchor was found or created, the terms
were extracted, and the returned document is the rewritten copy whose
final validation succeeded.
-/

theorem mergePrep_ok (now : String) (cfg cfg₁ : PyVal) (i : Nat)
    (existing : List GlossaryTerm)
    (h : mergePrep now cfg = .ok (cfg₁, i, existing)) :
    findOrCreateGlossaryEntity now cfg = .ok (cfg₁, i) ∧
    extractExistingTerms cfg₁ i = .ok existing := by
  rw [mergePrep] at h
  cases hf : findOrCreateGlossaryEntity now cfg with
  | error e => simp only [hf] at h; exact Except.noConfusion h
  | ok p =>
      obtain ⟨cfg₁', i'⟩ := p
      simp only [hf] at h
      cases he : extractExistingTerms cfg₁' i' with
      | error e => simp only [he] at h; exact Except.noConfusion h
      | ok ex =>
          simp only [he, Except.ok.injEq, Prod.mk.injEq] at h
          obtain ⟨rfl, rfl, rfl⟩ := h
          exact ⟨rfl, he⟩

theorem mergeCore_ok (now rid : String) (cfg : PyVal) (terms : List GlossaryTerm)
    (strategy : String) (d : PyVal) (s : MergeStats)
    (h : mergeCore now rid cfg terms strategy = .ok (d, s)) :
    ∃ cfg₁ i existing,
      mergePrep now cfg = .ok (cfg₁, i, existing) ∧
      updateConfigurationWithTerms now rid cfg₁ i
        (if strategy == "merge" then mergeTerms existing terms else terms) = .ok d ∧
      (validateConfiguration d).1 = true ∧
      s = { strategy := strategy, terms_provided := terms.length,
            terms_before := existing.length,
            terms_after :=
              (if strategy == "merge" then mergeTerms existing terms else terms).length,
            terms_added :=
              (if strategy == "merge" then countNewTerms existing terms
               else terms.length),
            terms_updated :=
              (if strategy == "merge" then terms.length - countNewTerms existing terms
               else 0),
            terms_removed :=
              (if strategy == "merge" then 0 else existing.length),
            glossary_entity_found := true, validation_passed := true,
            backup_created := true, timestamp := now } := by
  rw [mergeCore] at h
  cases hp : mergePrep now cfg with
  | error e => simp only [hp] at h; exact Except.noConfusion h
  | ok p =>
      obtain ⟨cfg₁, i, existing⟩ := p
      simp only [hp] at h
      cases hu : updateConfigurationWithTerms now rid cfg₁ i
          (if strategy == "merge" then mergeTerms existing terms else terms) with
      | error e => simp only [hu] at h; exact Except.noConfusion h
      | ok cfg₂ =>
          simp only [hu] at h
          cases hv : validateConfiguration cfg₂ with
          | mk ok? errs =>
              cases ok? with
              | true =>
                  simp only [hv, Except.ok.injEq, Prod.mk.injEq] at h
                  obtain ⟨rfl, rfl⟩ := h
                  refine ⟨cfg₁, i, existing, rfl, hu, by rw [hv], ?_⟩
                  by_cases hs' : (strategy == "merge") = true <;> simp [hs']
              | false =>
                  simp only [hv] at h
                  exact Except.noConfusion h

theorem mergeGT_ok (now rid : String) (cfg : PyVal) (terms : List GlossaryTerm)
    (strategy : String) (d : PyVal) (s : MergeStats)
    (h : mergeGlossaryTerms now rid cfg terms strategy = .ok (d, s)) :
    (strategy = "merge" ∨ strategy = "overwrite") ∧
    (validateConfiguration cfg).1 = true ∧
    mergeCore now rid cfg terms strategy = .ok (d, s) := by
  rw [mergeGlossaryTerms] at h
  by_cases hm : strategy = "merge"
  · subst hm
    rw [if_neg (by decide)] at h
    cases hv : validateConfiguration cfg with
    | mk ok? errs =>
        simp only [hv] at h
        cases ok? with
        | true =>
            simp only [] at h
            refine ⟨Or.inl rfl, rfl, ?_⟩
            cases hc : mergeCore now rid cfg terms "merge" with
            | error e => simp only [hc] at h; exact Except.noConfusion h
            | ok r =>
                simp only [hc, Except.ok.injEq] at h
                rw [h]
        | false =>
            simp only [] at h
            exact Except.noConfusion h
  · by_cases ho : strategy = "overwrite"
    · subst ho
      rw [if_neg (by decide)] at h
      cases hv : validateConfiguration cfg with
      | mk ok? errs =>
          simp only [hv] at h
          cases ok? with
          | true =>
              simp only [] at h
              refine ⟨Or.inr rfl, rfl, ?_⟩
              cases hc : mergeCore now rid cfg terms "overwrite" with
              | error e => simp only [hc] at h; exact Except.noConfusion h
              | ok r =>
                  simp only [hc, Except.ok.injEq] at h
                  rw [h]
          | false =>
              simp only [] at h
              exact Except.noConfusion h
    · rw [if_pos (by simp [hm, ho])] at h
      exact Except.noConfusion h

theorem scan_some_matches (es : List PyVal) (i : Nat)
    (h : scanForGlossary es = .ok (some i)) :
    entityMatches (es.getD i (.dict [])) = .ok true := by
  induction es generalizing i with
  | nil => rw [scanForGlossary] at h; exact absurd h (by simp)
  | cons e rest ih =>
      rw [scanForGlossary] at h
      cases hm : entityMatches e with
      | error err => simp only [hm] at h; exact Except.noConfusion h
      | ok b =>
          cases b with
          | true =>
              simp only [hm, Except.ok.injEq, Option.some.injEq] at h
              subst h
              simpa using hm
          | false =>
              simp only [hm] at h
              cases hs : scanForGlossary rest with
              | error err => simp only [hs] at h; exact Except.noConfusion h
              | ok o =>
                  cases o with
                  | some j =>
                      simp only [hs, Except.ok.injEq, Option.some.injEq] at h
                      subst h
                      simpa using ih j hs
                  | none => simp only [hs] at h; simp at h

theorem entityMatches_anchor_update (e₀ refs : PyVal) (now : String)
    (h : entityMatches e₀ = .ok true) :
    entityMatches (dset (dset e₀ "resources" refs) "updated" (.str now)) =
      .ok true := by
  obtain ⟨qs, rfl⟩ : ∃ qs, e₀ = .dict qs := by
    have hd := entityMatches_isDict e₀ true h
    cases e₀ <;> simp [PyVal.isDict] at hd
    exact ⟨_, rfl⟩
  have h1 : dset (.dict qs) "resources" refs = .dict (setPairs qs "resources" refs) :=
    rfl
  rw [h1, entityMatches_dset _ _ _ (by decide) (by decide) (by decide), ← h1,
    entityMatches_dset _ _ _ (by decide) (by decide) (by decide)]
  exact h

theorem getD_set_self (l : List PyVal) (i : Nat) (a d : PyVal)
    (h : i < l.length) : (l.set i a).getD i d = a := by
  induction l generalizing i with
  | nil => simp at h
  | cons x xs ih =>
      cases i with
      | zero => simp [List.set, List.getD]
      | succ j =>
          simp only [List.set, List.getD] at *
          exact ih j (by simpa using h)

theorem anchorOf_output (d : PyVal) (esOut : List PyVal) (i : Nat)
    (hA : dget d "analysisEntityList" = some (.list esOut))
    (hs : scanForGlossary esOut = .ok (some i)) :
    anchorOf d = some (i, esOut.getD i (.dict [])) := by
  rw [anchorOf]
  simp only [hA, hs]
  have hlt := scan_some_lt _ _ hs
  cases hq : esOut.get? i with
  | none =>
      rw [List.get?_eq_none] at hq
      omega
  | some e =>
      have hq2 : esOut[i]? = some e := by
        rw [← List.get?_eq_getElem?]
        exact hq
      simp [List.getD, hq2]

/-- C4: overwrite totality.  For every document and term list, a merge
call with strategy "overwrite" that returns yields `terms_after` equal to
the number of terms provided regardless of `terms_before`, counts every
previously stored (extracted) term as removed and every provided term as
added; and with an empty term list it yields `terms_after = 0`, the anchor
entity's `resources` list becomes empty, and no new glossary resource is
written (every resource of the output document already occurs in the
input document). -/
theorem overwrite_totality (now rid : String) (cfg : PyVal)
    (terms : List GlossaryTerm) (d : PyVal) (s : MergeStats)
    (h : mergeGlossaryTerms now rid cfg terms "overwrite" = .ok (d, s)) :
    s.terms_after = terms.length ∧ s.terms_added = terms.length ∧
    s.terms_removed = s.terms_before ∧
    (terms = [] → s.terms_after = 0 ∧
      (∃ i e, anchorOf d = some (i, e) ∧ dget e "resources" = some (.list []) ∧
        ∀ r ∈ listResources d, r ∈ listResources cfg)) := by
  obtain ⟨_, hvalid, hcore⟩ := mergeGT_ok now rid cfg terms "overwrite" d s h
  obtain ⟨cfg₁, i, existing, hprep, hupd, hvout, hstats⟩ :=
    mergeCore_ok now rid cfg terms "overwrite" d s hcore
  have hsm : (("overwrite" : String) == "merge") = false := by decide
  simp only [hsm, Bool.false_eq_true, if_false] at hupd hstats
  refine ⟨by simp [hstats], by simp [hstats], by simp [hstats], ?_⟩
  intro hterms
  subst hterms
  refine ⟨by simp [hstats], ?_⟩
  obtain ⟨hfind, _⟩ := mergePrep_ok now cfg cfg₁ i existing hprep
  have hcfgd := validateConfiguration_true_isDict cfg hvalid
  obtain ⟨es₁, hA₁, hscan, hlt, hdict₁, hpres⟩ :=
    findOrCreate_ok now cfg cfg₁ i hcfgd hfind
  obtain ⟨oldIds, filtered, hH, hLR, hAout, hRout, hDout⟩ :=
    update_ok now rid cfg₁ d i [] es₁ hdict₁ hA₁ hupd
  simp only [List.isEmpty_nil, if_true] at hAout hRout
  have hm0 := scan_some_matches es₁ i hscan
  have hmU := entityMatches_anchor_update (es₁.getD i (.dict [])) (.list []) now hm0
  have hscanOut := scan_set_preserve es₁ i _ hscan hmU
  have hanchor := anchorOf_output d _ i hAout hscanOut
  have hgetD := getD_set_self es₁ i
    (dset (dset (es₁.getD i (.dict [])) "resources" (.list []))
      "updated" (.str now)) (.dict []) hlt
  rw [hgetD] at hanchor
  refine ⟨i, _, hanchor, ?_, ?_⟩
  · have he0d : (es₁.getD i (.dict [])).isDict = true :=
      entityMatches_isDict _ _ hm0
    have hinner : (dset (es₁.getD i (.dict [])) "resources" (.list [])).isDict
        = true := by rw [isDict_dset]; exact he0d
    rw [dget_dset_ne' _ hinner _ _ _ (by decide)]
    exact dget_dset_self' _ he0d _ _
  · intro r hr
    have hlr : listResources d = filtered := by
      rw [listResources, hRout]
      simp [pyValList]
    rw [hlr] at hr
    obtain ⟨hmem, _, _⟩ := filterResourcesGo_mem oldIds _ filtered hLR r hr
    have hLReq : listResources cfg₁ = listResources cfg := by
      rw [listResources, listResources, hpres "resourceList" (by decide)]
    rw [← hLReq]
    exact hmem

/-- Witness for C4: overwriting the empty document with an empty term
list yields zero terms, an empty anchor reference list, and writes no
resource. -/
theorem overwrite_totality_witness :
    c4stats.terms_after = 0 ∧
    (∃ i e, anchorOf c4doc = some (i, e) ∧ dget e "resources" = some (.list []) ∧
      ∀ r ∈ listResources c4doc, r ∈ listResources exCfgEmpty) :=
  (overwrite_totality "T" "R" exCfgEmpty [] c4doc c4stats rfl).2.2.2 rfl

theorem getD_append_last (l : List PyVal) (x d : PyVal) :
    (l ++ [x]).getD l.length d = x := by
  induction l with
  | nil => rfl
  | cons y ys ih =>
      simp only [List.cons_append, List.length_cons, List.getD] at *
      exact ih

theorem findOrCreate_oldRefs (now : String) (cfg cfg₁ : PyVal) (i : Nat)
    (es₁ : List PyVal) (oldIds : List PyVal)
    (hd : cfg.isDict = true)
    (h : findOrCreateGlossaryEntity now cfg = .ok (cfg₁, i))
    (hA : dget cfg₁ "analysisEntityList" = some (.list es₁))
    (hH : pyHashList (dgetD (es₁.getD i (.dict [])) "resources" (.list [])) =
      .ok oldIds) :
    oldAnchorRefs cfg = oldIds := by
  rw [findOrCreateGlossaryEntity] at h
  have hgo : ∀ es, dget cfg "analysisEntityList" = some (.list es) ∨
      (dget cfg "analysisEntityList" = Option.none ∧ es = []) →
      findOrCreateGlossaryEntityGo now cfg es = .ok (cfg₁, i) →
      oldAnchorRefs cfg = oldIds := by
    intro es hes hg
    rw [findOrCreateGlossaryEntityGo] at hg
    cases hs : scanForGlossary es with
    | error err => simp only [hs] at hg; exact Except.noConfusion hg
    | ok o =>
        cases o with
        | some j =>
            simp only [hs, Except.ok.injEq, Prod.mk.injEq] at hg
            obtain ⟨rfl, rfl⟩ := hg
            rcases hes with hes | ⟨hes, rfl⟩
            · have hes₁ : es₁ = es := by
                rw [hes] at hA
                simpa using hA.symm
              subst hes₁
              have hanch := anchorOf_output cfg es₁ j hes hs
              unfold oldAnchorRefs
              simp only [hanch]
              unfold entityRefs
              simp only [pyHashList_ok_iter _ _ hH]
            · rw [scanForGlossary] at hs; exact absurd hs (by simp)
        | none =>
            simp only [hs, Except.ok.injEq, Prod.mk.injEq] at hg
            obtain ⟨rfl, rfl⟩ := hg
            have hes₁ : es₁ = es ++ [newGlossaryEntity now es.length] := by
              rw [dget_dset_self' cfg hd] at hA
              simpa using hA.symm
            subst hes₁
            rw [getD_append_last] at hH
            have hnew : dgetD (newGlossaryEntity now es.length) "resources"
                (.list []) = .list [] := rfl
            rw [hnew] at hH
            have : oldIds = [] := by
              have := pyHashList_ok_iter _ _ hH
              rw [pyIter] at this
              simpa using this.symm
            subst this
            rcases hes with hes | ⟨hes, _⟩
            · unfold oldAnchorRefs anchorOf
              rw [hes]
              simp only [hs]
            · unfold oldAnchorRefs anchorOf
              rw [hes]
  cases hAc : dget cfg "analysisEntityList" with
  | none =>
      simp only [hAc] at h
      exact hgo [] (Or.inr ⟨hAc, rfl⟩) h
  | some v =>
      cases v with
      | list es =>
          simp only [hAc] at h
          exact hgo es (Or.inl hAc) h
      | str sv => simp only [hAc] at h; exact Except.noConfusion h
      | int n => simp only [hAc] at h; exact Except.noConfusion h
      | bool b => simp only [hAc] at h; exact Except.noConfusion h
      | none => simp only [hAc] at h; exact Except.noConfusion h
      | dict qs => simp only [hAc] at h; exact Except.noConfusion h

theorem pyMemSet_false_all (x : PyVal) (l : List PyVal)
    (h : pyMemSet x l = .ok false) : ∀ y ∈ l, pyEq x y = false := by
  rw [pyMemSet] at h
  by_cases hh : pyHashable x
  · simp only [hh, if_pos, Except.ok.injEq] at h
    intro y hy
    by_contra hc
    simp only [Bool.not_eq_false] at hc
    exact absurd h (by simp [List.any_eq_true]; exact ⟨y, hy, hc⟩)
  · simp only [hh, Bool.false_eq_true, if_neg, not_false_iff] at h
    exact Except.noConfusion h

theorem dget_mkGlossaryResource_id (now rid : String) (ft : List GlossaryTerm) :
    dgetD (mkGlossaryResource now rid ft) "id" .none = .str rid := rfl

/-- C5: cross-reference integrity.  After every successful merge call
(either strategy), every id in the returned document's anchor entity's
`resources` list resolves to a resource present in the returned resource
list, and no resource previously referenced by the anchor remains in the
resource list unless it is the one the anchor now references. -/
theorem merge_cross_reference_integrity (now rid : String) (cfg : PyVal)
    (terms : List GlossaryTerm) (strategy : String) (d : PyVal) (s : MergeStats)
    (h : mergeGlossaryTerms now rid cfg terms strategy = .ok (d, s)) :
    ∃ i e, anchorOf d = some (i, e) ∧
      (∀ ref ∈ entityRefs e, ∃ r ∈ listResources d,
        pyEq (dgetD r "id" .none) ref = true) ∧
      (∀ r ∈ listResources d, ∀ ref ∈ oldAnchorRefs cfg,
        pyEq (dgetD r "id" .none) ref = true →
        ∃ ref' ∈ entityRefs e, pyEq (dgetD r "id" .none) ref' = true) := by
  obtain ⟨hstrat, hvalid, hcore⟩ := mergeGT_ok now rid cfg terms strategy d s h
  obtain ⟨cfg₁, i, existing, hprep, hupd, hvout, hstats⟩ :=
    mergeCore_ok now rid cfg terms strategy d s hcore
  obtain ⟨hfind, hextract⟩ := mergePrep_ok now cfg cfg₁ i existing hprep
  have hcfgd := validateConfiguration_true_isDict cfg hvalid
  obtain ⟨es₁, hA₁, hscan, hlt, hdict₁, hpres⟩ :=
    findOrCreate_ok now cfg cfg₁ i hcfgd hfind
  obtain ⟨oldIds, filtered, hH, hLR, hAout, hRout, hDout⟩ :=
    update_ok now rid cfg₁ d i
      (if strategy == "merge" then mergeTerms existing terms else terms)
      es₁ hdict₁ hA₁ hupd
  have hold : oldAnchorRefs cfg = oldIds :=
    findOrCreate_oldRefs now cfg cfg₁ i es₁ oldIds hcfgd hfind hA₁ hH
  have hm0 := scan_some_matches es₁ i hscan
  have hmU := entityMatches_anchor_update (es₁.getD i (.dict []))
    (if (if strategy == "merge" then mergeTerms existing terms
      else terms).isEmpty then PyVal.list [] else PyVal.list [.str rid]) now hm0
  have hscanOut := scan_set_preserve es₁ i _ hscan hmU
  have hanchor := anchorOf_output d _ i hAout hscanOut
  rw [getD_set_self es₁ i _ (.dict []) hlt] at hanchor
  have he0d := entityMatches_isDict _ _ hm0
  have hinner : (dset (es₁.getD i (.dict [])) "resources"
      (if (if strategy == "merge" then mergeTerms existing terms
        else terms).isEmpty then PyVal.list [] else PyVal.list [.str rid])).isDict
      = true := by rw [isDict_dset]; exact he0d
  have hupdres : dget (dset (dset (es₁.getD i (.dict [])) "resources"
      (if (if strategy == "merge" then mergeTerms existing terms
        else terms).isEmpty then PyVal.list [] else PyVal.list [.str rid]))
      "updated" (.str now)) "resources" =
      some (if (if strategy == "merge" then mergeTerms existing terms
        else terms).isEmpty then PyVal.list [] else PyVal.list [.str rid]) := by
    rw [dget_dset_ne' _ hinner _ _ _ (by decide)]
    exact dget_dset_self' _ he0d _ _
  have hlrd : listResources d = filtered ++
      (if (if strategy == "merge" then mergeTerms existing terms
        else terms).isEmpty then [] else [mkGlossaryResource now rid
          (if strategy == "merge" then mergeTerms existing terms else terms)]) := by
    rw [listResources, hRout]
    rfl
  have hrefsE : entityRefs (dset (dset (es₁.getD i (.dict [])) "resources"
      (if (if strategy == "merge" then mergeTerms existing terms
        else terms).isEmpty then PyVal.list [] else PyVal.list [.str rid]))
      "updated" (.str now)) =
      (if (if strategy == "merge" then mergeTerms existing terms
        else terms).isEmpty then [] else [PyVal.str rid]) := by
    unfold entityRefs
    rw [dgetD, hupdres]
    by_cases hft : (if strategy == "merge" then mergeTerms existing terms
        else terms).isEmpty
    · simp only [hft, if_pos]
      rfl
    · simp only [hft, Bool.false_eq_true, if_neg, not_false_iff]
      rfl
  refine ⟨i, _, hanchor, ?_, ?_⟩
  · intro ref href
    rw [hrefsE] at href
    by_cases hft : (if strategy == "merge" then mergeTerms existing terms
        else terms).isEmpty
    · rw [if_pos hft] at href
      simp at href
    · rw [if_neg hft] at href
      have href' : ref = .str rid := by simpa using href
      subst href'
      refine ⟨mkGlossaryResource now rid
        (if strategy == "merge" then mergeTerms existing terms else terms), ?_, ?_⟩
      · rw [hlrd, if_neg hft]
        exact List.mem_append_right _ (List.mem_singleton.mpr rfl)
      · rw [dget_mkGlossaryResource_id]
        simp [pyEq]
  · intro r hr ref hrefold hpyeq
    rw [hlrd] at hr
    rcases List.mem_append.mp hr with hr | hr
    · obtain ⟨_, _, hset⟩ := filterResourcesGo_mem oldIds _ filtered hLR r hr
      have hall := pyMemSet_false_all _ _ hset
      rw [hold] at hrefold
      exact absurd hpyeq (by rw [hall ref hrefold]; simp)
    · by_cases hft : (if strategy == "merge" then mergeTerms existing terms
          else terms).isEmpty
      · rw [if_pos hft] at hr
        simp at hr
      · rw [if_neg hft] at hr
        have hr' : r = mkGlossaryResource now rid
            (if strategy == "merge" then mergeTerms existing terms else terms) :=
          List.mem_singleton.mp hr
        subst hr'
        refine ⟨.str rid, ?_, ?_⟩
        · rw [hrefsE, if_neg hft]
          exact List.mem_singleton.mpr rfl
        · rw [dget_mkGlossaryResource_id]
          simp [pyEq]

/-- Witness for C5: one merge of a single term into the empty document,
with the integrity facts instantiated on the produced document. -/
theorem merge_cross_reference_integrity_witness :
    ∃ i e, anchorOf c5doc = some (i, e) ∧
      (∀ ref ∈ entityRefs e, ∃ r ∈ listResources c5doc,
        pyEq (dgetD r "id" .none) ref = true) ∧
      (∀ r ∈ listResources c5doc, ∀ ref ∈ oldAnchorRefs exCfgEmpty,
        pyEq (dgetD r "id" .none) ref = true →
        ∃ ref' ∈ entityRefs e, pyEq (dgetD r "id" .none) ref' = true) :=
  merge_cross_reference_integrity "T" "R" exCfgEmpty c5terms "merge"
    c5doc c5stats rfl

/-- C2: evaluation of the merge at a document in the flat per-term
resource encoding.  The input document stores its one term as a flat
`{id, phrase, definition}` resource; the merge extracts zero existing
terms from it (`terms_before = 0`), discards the flat resource, and
rewrites the glossary as a single bundle resource carrying a `glossary`
array — it does not rewrite in the document's own encoding. -/
theorem merge_rewrites_flat_document_as_bundle :
    (listResources flatDoc).all (fun r => hasKey r "phrase") = true ∧
    c2run = .ok (c2doc, c2stats) ∧
    c2stats.terms_before = 0 ∧
    (listResources c2doc).length = 1 ∧
    (listResources c2doc).all
      (fun r => hasKey r "glossary" && !(hasKey r "phrase")) = true :=
  ⟨rfl, rfl, rfl, rfl, rfl⟩

/-- C6 (counterexample): with the allowed strategy "merge" the call still
raises a `MergeError` — here the input-validation failure on an empty
dictionary — so the claim that merge never raises this error for an
allowed strategy is false. -/
theorem merge_error_on_allowed_strategy :
    mergeGlossaryTerms "T" "R" (.dict []) [] "merge" =
      .error (.inputValidationFailed
        ("Input configuration validation failed: " ++
         "Missing required field: analysisEntityList; " ++
         "Missing required field: resourceList")) := rfl

/-- C6 (amended): a strategy other than "merge"/"overwrite" always raises
the invalid-strategy `MergeError` with the caller's document untouched;
an allowed strategy never raises the invalid-strategy error, though the
call may still raise a `MergeError` for a validation failure. -/
theorem invalid_strategy_raises_merge_error (now rid : String) (cfg : PyVal)
    (terms : List GlossaryTerm) (strategy : String) :
    (strategy ≠ "merge" → strategy ≠ "overwrite" →
      mergeGlossaryTerms now rid cfg terms strategy =
        .error (.invalidStrategy strategy) ∧
      (mergeGlossaryTermsCall now rid cfg terms strategy).1 = cfg) ∧
    ((strategy = "merge" ∨ strategy = "overwrite") →
      ∀ e, mergeGlossaryTerms now rid cfg terms strategy ≠
        .error (.invalidStrategy e)) := by
  constructor
  · intro h1 h2
    refine ⟨?_, rfl⟩
    rw [mergeGlossaryTerms, if_pos (by simp [h1, h2])]
  · intro hs e hc
    rw [mergeGlossaryTerms] at hc
    rcases hs with rfl | rfl
    · rw [if_neg (by decide)] at hc
      cases hv : validateConfiguration cfg with
      | mk ok? errs =>
          simp only [hv] at hc
          cases ok? with
          | true =>
              simp only [] at hc
              cases hcore : mergeCore now rid cfg terms "merge" with
              | ok r => simp only [hcore] at hc; exact Except.noConfusion hc
              | error e' => simp only [hcore] at hc; simp at hc
          | false =>
              simp only [] at hc
              simp at hc
    · rw [if_neg (by decide)] at hc
      cases hv : validateConfiguration cfg with
      | mk ok? errs =>
          simp only [hv] at hc
          cases ok? with
          | true =>
              simp only [] at hc
              cases hcore : mergeCore now rid cfg terms "overwrite" with
              | ok r => simp only [hcore] at hc; exact Except.noConfusion hc
              | error e' => simp only [hcore] at hc; simp at hc
          | false =>
              simp only [] at hc
              simp at hc

/-- Witness for C6: the unknown strategy "replace" raises the
invalid-strategy error with the caller document unchanged, while the
allowed strategy "merge" never produces an invalid-strategy error. -/
theorem invalid_strategy_raises_merge_error_witness :
    (mergeGlossaryTerms "T" "R" exCfgEmpty [] "replace" =
       .error (.invalidStrategy "replace") ∧
     (mergeGlossaryTermsCall "T" "R" exCfgEmpty [] "replace").1 = exCfgEmpty) ∧
    (∀ e, mergeGlossaryTerms "T" "R" exCfgEmpty [] "merge" ≠
       .error (.invalidStrategy e)) :=
  ⟨(invalid_strategy_raises_merge_error "T" "R" exCfgEmpty [] "replace").1
      (by decide) (by decide),
   (invalid_strategy_raises_merge_error "T" "R" exCfgEmpty [] "merge").2
      (Or.inl rfl)⟩

theorem getD_set_ne (l : List PyVal) (i j : Nat) (a d : PyVal)
    (h : j ≠ i) : (l.set i a).getD j d = l.getD j d := by
  induction l generalizing i j with
  | nil => rfl
  | cons x xs ih =>
      cases i with
      | zero =>
          cases j with
          | zero => exact absurd rfl h
          | succ j' => rfl
      | succ i' =>
          cases j with
          | zero => rfl
          | succ j' => exact ih i' j' (fun he => h (by rw [he]))

theorem getD_append_left (l l' : List PyVal) (j : Nat) (d : PyVal)
    (h : j < l.length) : (l ++ l').getD j d = l.getD j d := by
  induction l generalizing j with
  | nil => simp at h
  | cons x xs ih =>
      cases j with
      | zero => rfl
      | succ j' => exact ih j' (by simpa using h)

/-- C7: frame property.  For any heap, any valid reference to the caller's
document cell and any call — successful or failed — the caller's cell
reads back unchanged after `merge_glossary_terms`: the deepcopy of
merger.py line 259 allocates a fresh cell and the body's mutations all
write there, so the untouched caller cell follows from the freshness of
the allocation (the working reference is provably distinct from the
caller's).  On success the call returns the fresh reference — never the
caller's — and its cell holds exactly the value-level merge result. -/
theorem merge_never_mutates_caller_document (now rid : String)
    (σ : List PyVal) (cfgRef : Nat) (hr : cfgRef < σ.length)
    (terms : List GlossaryTerm) (strategy : String) :
    readCell (mergeGlossaryTermsHeap now rid σ cfgRef terms strategy).1 cfgRef
      = readCell σ cfgRef ∧
    (∀ u s, (mergeGlossaryTermsHeap now rid σ cfgRef terms strategy).2 =
        Except.ok (u, s) →
      u ≠ cfgRef ∧
      ∃ d, mergeGlossaryTerms now rid (readCell σ cfgRef) terms strategy =
          Except.ok (d, s) ∧
        readCell (mergeGlossaryTermsHeap now rid σ cfgRef terms strategy).1 u
          = d) := by
  have hcopy : readCell (σ ++ [readCell σ cfgRef]) σ.length
      = readCell σ cfgRef := getD_append_last σ _ _
  unfold mergeGlossaryTermsHeap mergeGlossaryTerms
  cases hs : (strategy ≠ "merge" && strategy ≠ "overwrite" : Bool) with
  | true =>
      simp only [hs, if_true]
      exact ⟨trivial, fun u s h => Except.noConfusion h⟩
  | false =>
      simp only [hs, Bool.false_eq_true, if_neg, not_false_iff]
      cases hv : validateConfiguration (readCell σ cfgRef) with
      | mk ok? errs =>
          cases ok? with
          | false =>
              simp only [hv]
              exact ⟨trivial, fun u s h => Except.noConfusion h⟩
          | true =>
              simp only [hv, alloc]
              cases hc : mergeCore now rid
                  (readCell (σ ++ [readCell σ cfgRef]) σ.length)
                  terms strategy with
              | error e =>
                  simp only [hc]
                  refine ⟨?_, fun u s h => Except.noConfusion h⟩
                  exact getD_append_left σ _ cfgRef .none hr
              | ok p =>
                  obtain ⟨d, s0⟩ := p
                  rw [hcopy] at hc
                  simp only [hcopy, hc]
                  constructor
                  · show readCell
                        (writeCell (σ ++ [readCell σ cfgRef]) σ.length d)
                        cfgRef = readCell σ cfgRef
                    rw [readCell, writeCell,
                      getD_set_ne _ _ _ _ _ (Nat.ne_of_lt hr),
                      getD_append_left σ _ cfgRef .none hr]
                    rfl
                  · intro u s h
                    simp only [Except.ok.injEq, Prod.mk.injEq] at h
                    obtain ⟨rfl, rfl⟩ := h
                    refine ⟨Nat.ne_of_gt hr, d, rfl, ?_⟩
                    show readCell
                        (writeCell (σ ++ [readCell σ cfgRef]) σ.length d)
                        σ.length = d
                    rw [readCell, writeCell]
                    exact getD_set_self _ _ _ _ (by simp)

/-- Witness for C7: on a one-cell heap holding the empty document, an
overwrite call leaves the caller's cell intact. -/
theorem merge_never_mutates_caller_document_witness :
    readCell (mergeGlossaryTermsHeap "T" "R" [exCfgEmpty] 0 [] "overwrite").1 0
      = readCell [exCfgEmpty] 0 :=
  (merge_never_mutates_caller_document "T" "R" [exCfgEmpty] 0 (by decide)
    [] "overwrite").1

/-!
Deduplication (`_deduplicate_terms`): the kept entry for each
case-insensitive phrase is the first occurrence, in first-occurrence
order.
-/

theorem dedupGo_sublist (ts : List GlossaryTerm) :
    ∀ seen, List.Sublist (deduplicateTermsGo seen ts) ts := by
  induction ts with
  | nil => intro seen; rw [deduplicateTermsGo]
  | cons t rest ih =>
      intro seen
      rw [deduplicateTermsGo]
      by_cases h : seen.contains t.phrase.lower
      · exact (if_pos h ▸ (ih seen).cons t)
      · rw [if_neg h]
        exact (ih _).cons₂ t

theorem dedupGo_not_seen (ts : List GlossaryTerm) :
    ∀ seen u, u ∈ deduplicateTermsGo seen ts → u.phrase.lower ∉ seen := by
  induction ts with
  | nil => intro seen u hu; rw [deduplicateTermsGo] at hu; simp at hu
  | cons t rest ih =>
      intro seen u hu
      rw [deduplicateTermsGo] at hu
      by_cases h : seen.contains t.phrase.lower
      · rw [if_pos h] at hu
        exact ih seen u hu
      · rw [if_neg h] at hu
        rcases List.mem_cons.mp hu with rfl | hu
        · intro hc
          exact h (List.elem_eq_true_of_mem hc)
        · have := ih _ u hu
          intro hc
          exact this (List.mem_cons_of_mem _ hc)

theorem dedupGo_nodup (ts : List GlossaryTerm) :
    ∀ seen, ((deduplicateTermsGo seen ts).map
      (fun t => t.phrase.lower)).Nodup := by
  induction ts with
  | nil => intro seen; rw [deduplicateTermsGo]; simp
  | cons t rest ih =>
      intro seen
      rw [deduplicateTermsGo]
      by_cases h : seen.contains t.phrase.lower
      · rw [if_pos h]; exact ih seen
      · rw [if_neg h]
        simp only [List.map_cons, List.nodup_cons]
        refine ⟨?_, ih _⟩
        intro hc
        obtain ⟨u, hu, hequ⟩ := List.mem_map.mp hc
        have := dedupGo_not_seen rest _ u hu
        exact this (by rw [hequ]; exact List.mem_cons_self _ _)

theorem dedupGo_covers (ts : List GlossaryTerm) :
    ∀ seen, ∀ t ∈ ts, t.phrase.lower ∈ seen ∨
      ∃ u ∈ deduplicateTermsGo seen ts, u.phrase.lower = t.phrase.lower := by
  induction ts with
  | nil => intro seen t ht; simp at ht
  | cons t₀ rest ih =>
      intro seen t ht
      rw [deduplicateTermsGo]
      by_cases h : seen.contains t₀.phrase.lower
      · rw [if_pos h]
        rcases List.mem_cons.mp ht with rfl | ht'
        · exact Or.inl (by simpa using h)
        · exact ih seen t ht'
      · rw [if_neg h]
        rcases List.mem_cons.mp ht with rfl | ht'
        · exact Or.inr ⟨t, List.mem_cons_self _ _, rfl⟩
        · rcases ih (t₀.phrase.lower :: seen) t ht' with hs | ⟨u, hu, hequ⟩
          · rcases List.mem_cons.mp hs with heq | hs'
            · exact Or.inr ⟨t₀, List.mem_cons_self _ _, heq.symm⟩
            · exact Or.inl hs'
          · exact Or.inr ⟨u, List.mem_cons_of_mem _ hu, hequ⟩

theorem dedupGo_find (ts : List GlossaryTerm) :
    ∀ seen, ∀ u ∈ deduplicateTermsGo seen ts,
      ts.find? (fun t => t.phrase.lower == u.phrase.lower) = some u := by
  induction ts with
  | nil => intro seen u hu; rw [deduplicateTermsGo] at hu; simp at hu
  | cons t₀ rest ih =>
      intro seen u hu
      rw [deduplicateTermsGo] at hu
      by_cases h : seen.contains t₀.phrase.lower
      · rw [if_pos h] at hu
        have hne : u.phrase.lower ≠ t₀.phrase.lower := by
          intro hc
          exact dedupGo_not_seen rest seen u hu (by rw [hc]; simpa using h)
        rw [List.find?_cons_of_neg _ (by simpa using fun hc => hne hc.symm)]
        exact ih seen u hu
      · rw [if_neg h] at hu
        rcases List.mem_cons.mp hu with rfl | hu'
        · rw [List.find?_cons_of_pos _ (by simp)]
        · have hne : u.phrase.lower ≠ t₀.phrase.lower := by
            intro hc
            exact dedupGo_not_seen rest _ u hu'
              (by rw [hc]; exact List.mem_cons_self _ _)
          rw [List.find?_cons_of_neg _ (by simpa using fun hc => hne hc.symm)]
          exact ih _ u hu'

/-- C1 (counterexample): dedup over `["API", "api", "API"]` with distinct
definitions keeps one entry whose definition is that of the FIRST
occurrence, not the last one as the claim states. -/
theorem dedup_last_occurrence_counterexample :
    (deduplicateTerms exDedupTerms).length = 1 ∧
    (deduplicateTerms exDedupTerms).map (fun t => t.definition) = ["d1"] ∧
    "d1" ≠ "d3" :=
  ⟨rfl, rfl, by decide⟩

/-- C1 (amended): deduplication by case-insensitive phrase keeps, for each
phrase, the FIRST occurrence in processing order (the whole record,
definition included), preserving first-occurrence order: the result is a
sublist of the input with pairwise-distinct lower-cased phrases covering
every input phrase, every kept entry is the first input entry with its
phrase, and on `["API", "api", "API"]` with distinct definitions the
result is exactly one entry carrying the first occurrence's definition. -/
theorem dedup_keeps_first_occurrence (ts : List GlossaryTerm) :
    List.Sublist (deduplicateTerms ts) ts ∧
    ((deduplicateTerms ts).map (fun t => t.phrase.lower)).Nodup ∧
    (∀ t ∈ ts, ∃ u ∈ deduplicateTerms ts,
      u.phrase.lower = t.phrase.lower) ∧
    (∀ u ∈ deduplicateTerms ts,
      ts.find? (fun t => t.phrase.lower == u.phrase.lower) = some u) ∧
    deduplicateTerms exDedupTerms = [⟨"API", "d1", .dict []⟩] := by
  refine ⟨dedupGo_sublist ts [], dedupGo_nodup ts [], ?_, dedupGo_find ts [], rfl⟩
  intro t ht
  rcases dedupGo_covers ts [] t ht with hs | h
  · simp at hs
  · exact h

/-- Witness for C1: in the spec's example the kept entry for phrase key
"api" is the first occurrence, `("API", "d1")`. -/
theorem dedup_keeps_first_occurrence_witness :
    exDedupTerms.find?
      (fun t => t.phrase.lower ==
        (⟨"API", "d1", .dict []⟩ : GlossaryTerm).phrase.lower) =
      some ⟨"API", "d1", .dict []⟩ := by
  have h := dedup_keeps_first_occurrence exDedupTerms
  have hm : (⟨"API", "d1", .dict []⟩ : GlossaryTerm) ∈
      deduplicateTerms exDedupTerms := by
    rw [h.2.2.2.2]
    exact List.mem_singleton.mpr rfl
  exact h.2.2.2.1 _ hm

/-!
CSV column discovery: a missing phrase column or a missing definition
column is always a hard error in `_extract_csv_terms`.
-/

/-- C8 (counterexample): on a header where a phrase column is found but no
definition-like column exists, extraction still fails outright — there is
no profile under which the file is processed with empty definitions. -/
theorem csv_missing_definition_column_counterexample :
    findPhraseColumn ["term", "notes"] = some "term" ∧
    findDefinitionColumn ["term", "notes"] = Option.none ∧
    extractCsvTerms ["term", "notes"] [[some "API", some "An interface"]] =
      Except.error
        "Required columns not found. Available: [\x27term\x27, \x27notes\x27]" :=
  ⟨rfl, rfl, rfl⟩

/-- C8 (amended): CSV extraction raises exactly when the phrase column or
the definition column cannot be located in the normalized header; either
missing column is a hard failure for the whole file. -/
theorem csv_missing_column_is_hard_error
    (rawCols : List String) (rows : List (List (Option String))) :
    (∃ e, extractCsvTerms rawCols rows = Except.error e) ↔
      (findPhraseColumn (rawCols.map (fun c => c.strip.lower)) = Option.none ∨
       findDefinitionColumn (rawCols.map (fun c => c.strip.lower)) =
         Option.none) := by
  unfold extractCsvTerms
  cases hp : findPhraseColumn (rawCols.map (fun c => c.strip.lower)) with
  | some pcol =>
      cases hd : findDefinitionColumn (rawCols.map (fun c => c.strip.lower)) with
      | some dcol => simp [hp, hd]
      | none => simp [hp, hd]
  | none =>
      cases hd : findDefinitionColumn (rawCols.map (fun c => c.strip.lower)) with
      | some dcol => simp [hp, hd]
      | none => simp [hp, hd]

/-- Witness for C8: with header `["term", "notes"]` the definition column
is missing, so extraction reports an error. -/
theorem csv_missing_column_is_hard_error_witness :
    ∃ e, extractCsvTerms ["term", "notes"] [] = Except.error e :=
  (csv_missing_column_is_hard_error ["term", "notes"] []).mpr (Or.inr rfl)

/-!
`clean_and_validate_term` and the validation report.  In the embedding the
operation is a total function into `Option GlossaryTerm × ValidatorState`:
every exception path of the Python body (the `try` around cleaning,
validation and construction) lands in the `Option.none` branch with the
rejection counter bumped, never in a raised error.
-/

/-- C9: clean-and-validate never raises: it is total, and every rejected
input yields `Option.none` with `rejected_count` incremented, the cleaned
count untouched and exactly one rejection reason recorded, while every
accepted input increments `cleaned_count` and records nothing; the
validation report exposes `cleaned_count`, `rejected_count`,
`error_count`, at most the first 10 recorded reasons, and the
`success_rate` ratio (0 when nothing was processed). -/
theorem clean_and_validate_never_raises_and_reports
    (st : ValidatorState) (phrase definition : String) (metadata : PyVal) :
    ((cleanAndValidateTerm st phrase definition metadata).1 = Option.none →
      ((cleanAndValidateTerm st phrase definition metadata).2.rejected_count =
          st.rejected_count + 1 ∧
       (cleanAndValidateTerm st phrase definition metadata).2.cleaned_count =
          st.cleaned_count ∧
       (cleanAndValidateTerm st phrase definition
           metadata).2.validation_errors.length =
          st.validation_errors.length + 1)) ∧
    (∀ t, (cleanAndValidateTerm st phrase definition metadata).1 = some t →
      ((cleanAndValidateTerm st phrase definition metadata).2.cleaned_count =
          st.cleaned_count + 1 ∧
       (cleanAndValidateTerm st phrase definition metadata).2.rejected_count =
          st.rejected_count ∧
       (cleanAndValidateTerm st phrase definition
           metadata).2.validation_errors = st.validation_errors)) ∧
    (getValidationReport st).cleaned_count = st.cleaned_count ∧
    (getValidationReport st).rejected_count = st.rejected_count ∧
    (getValidationReport st).error_count = st.validation_errors.length ∧
    (getValidationReport st).errors = st.validation_errors.take 10 ∧
    (getValidationReport st).errors.length ≤ 10 ∧
    (st.cleaned_count + st.rejected_count = 0 →
      (getValidationReport st).success_rate = 0) ∧
    (0 < st.cleaned_count + st.rejected_count →
      (getValidationReport st).success_rate =
        (st.cleaned_count : ℚ) /
          ((st.cleaned_count : ℚ) + (st.rejected_count : ℚ))) := by
  refine ⟨?_, ?_, rfl, rfl, rfl, rfl, ?_, ?_, ?_⟩
  · intro h
    simp only [cleanAndValidateTerm] at h ⊢
    cases h1 : validatePhraseErr (cleanPhrase phrase) with
    | some e => simp [h1]
    | none =>
        simp only [h1] at h ⊢
        cases h2 : validateDefinitionErr (cleanDefinition definition) with
        | some e => simp [h2]
        | none =>
            simp only [h2] at h ⊢
            cases h3 : GlossaryTerm.init (cleanPhrase phrase)
                (cleanDefinition definition)
                (if pyTruthy metadata then metadata else .dict []) with
            | ok t => simp [h3] at h
            | error e => simp [h3]
  · intro t h
    simp only [cleanAndValidateTerm] at h ⊢
    cases h1 : validatePhraseErr (cleanPhrase phrase) with
    | some e => simp [h1] at h
    | none =>
        simp only [h1] at h ⊢
        cases h2 : validateDefinitionErr (cleanDefinition definition) with
        | some e => simp [h2] at h
        | none =>
            simp only [h2] at h ⊢
            cases h3 : GlossaryTerm.init (cleanPhrase phrase)
                (cleanDefinition definition)
                (if pyTruthy metadata then metadata else .dict []) with
            | ok u => simp [h3]
            | error e => simp [h3] at h
  · simp [getValidationReport]
  · intro h0
    simp [getValidationReport, h0]
  · intro h0
    simp [getValidationReport, h0]

/-- Witness for C9: the empty phrase is rejected, bumping the rejection
counter, leaving the cleaned counter at zero and recording one reason. -/
theorem clean_and_validate_never_raises_and_reports_witness :
    (cleanAndValidateTerm ⟨[], 0, 0⟩ "" "" (.dict [])).2.rejected_count =
        0 + 1 ∧
    (cleanAndValidateTerm ⟨[], 0, 0⟩ "" "" (.dict [])).2.cleaned_count = 0 ∧
    (cleanAndValidateTerm ⟨[], 0, 0⟩ "" ""
        (.dict [])).2.validation_errors.length =
      ([] : List String).length + 1 :=
  (clean_and_validate_never_raises_and_reports ⟨[], 0, 0⟩ "" "" (.dict [])).1
    rfl

/-!
The `GlossaryTerm` constructor invariant and its preservation by the
merger's term extraction.
-/

theorem toOption_eq_some {e : Except String GlossaryTerm} {t : GlossaryTerm}
    (h : e.toOption = some t) : e = Except.ok t := by
  cases e with
  | ok u =>
      simp [Except.toOption] at h
      rw [h]
  | error s => simp [Except.toOption] at h

theorem init_ok_nonempty (p d : String) (m : PyVal) (t : GlossaryTerm)
    (h : GlossaryTerm.init p d m = Except.ok t) :
    t.phrase ≠ "" ∧ t.definition ≠ "" := by
  unfold GlossaryTerm.init at h
  by_cases hp : p = ""
  · simp [hp] at h
  · by_cases hd : d = ""
    · simp [hp, hd] at h
    · simp [hp, hd] at h
      rw [← h]
      exact ⟨hp, hd⟩

theorem init_ok_exists (p d : String) (m : PyVal) :
    (∃ t, GlossaryTerm.init p d m = Except.ok t) ↔ (p ≠ "" ∧ d ≠ "") := by
  constructor
  · rintro ⟨t, ht⟩
    unfold GlossaryTerm.init at ht
    by_cases hp : p = ""
    · simp [hp] at ht
    · by_cases hd : d = ""
      · simp [hp, hd] at ht
      · exact ⟨hp, hd⟩
  · rintro ⟨hp, hd⟩
    refine ⟨⟨p, d, if pyTruthy m then m else .dict []⟩, ?_⟩
    unfold GlossaryTerm.init
    rw [if_neg hp, if_neg hd]

theorem mem_filterMap_init_nonempty {α : Type} (f : α → Option GlossaryTerm)
    (hf : ∀ a u, f a = some u → ∃ p d m, GlossaryTerm.init p d m = Except.ok u)
    (l : List α) (t : GlossaryTerm) (ht : t ∈ l.filterMap f) :
    t.phrase ≠ "" ∧ t.definition ≠ "" := by
  obtain ⟨a, _, hfa⟩ := List.mem_filterMap.mp ht
  obtain ⟨p, d, m, hinit⟩ := hf a t hfa
  exact init_ok_nonempty p d m t hinit

theorem extractTerms_nonempty (r : PyVal) (t : GlossaryTerm)
    (ht : t ∈ extractTermsFromResource r) :
    t.phrase ≠ "" ∧ t.definition ≠ "" := by
  unfold extractTermsFromResource at ht
  split at ht
  · refine mem_filterMap_init_nonempty _ ?_ _ t ht
    intro a u h
    dsimp only at h
    split_ifs at h with h1 h2
    exact ⟨_, _, _, toOption_eq_some h⟩
  · split at ht
    · refine mem_filterMap_init_nonempty _ ?_ _ t ht
      intro a u h
      obtain ⟨p0, v0⟩ := a
      dsimp only at h
      split_ifs at h with h1
      exact ⟨_, _, _, toOption_eq_some h⟩
    · simp at ht

/-- C10: a `GlossaryTerm` is constructible exactly when both the phrase
and the definition are non-empty; every constructed term carries
non-empty fields; and every term the merger extracts from a resource —
bundle or legacy encoding — has a non-empty phrase and a non-empty
definition. -/
theorem glossary_term_nonempty_invariant :
    (∀ p d m, (∃ t, GlossaryTerm.init p d m = Except.ok t) ↔
        (p ≠ "" ∧ d ≠ "")) ∧
    (∀ p d m t, GlossaryTerm.init p d m = Except.ok t →
        t.phrase ≠ "" ∧ t.definition ≠ "") ∧
    (∀ r t, t ∈ extractTermsFromResource r →
        t.phrase ≠ "" ∧ t.definition ≠ "") :=
  ⟨init_ok_exists, init_ok_nonempty, extractTerms_nonempty⟩

/-- Witness for C10: a term with non-empty phrase and definition is
constructed successfully. -/
theorem glossary_term_nonempty_invariant_witness :
    ∃ t, GlossaryTerm.init "API" "An interface." (.dict []) = Except.ok t :=
  (glossary_term_nonempty_invariant.1 "API" "An interface."
      (.dict [])).mpr ⟨by decide, by decide⟩

/-!
Second-run analysis for merge idempotence: locating the anchor and the
freshly written bundle in the output document of a first merge run, and
reading the bundle back.
-/

theorem extractRefsGo_mem (rlist : List PyVal) (refs : List PyVal)
    (ts : List GlossaryTerm) (h : extractRefsGo rlist refs = .ok ts)
    (u : GlossaryTerm) (hu : u ∈ ts) :
    ∃ r, u ∈ extractTermsFromResource r := by
  induction refs generalizing ts with
  | nil =>
      rw [extractRefsGo] at h
      simp only [Except.ok.injEq] at h
      subst h
      simp at hu
  | cons ref rest ih =>
      rw [extractRefsGo] at h
      cases hf : findResource ref rlist with
      | error e => simp only [hf] at h; exact Except.noConfusion h
      | ok o =>
          cases o with
          | none => simp only [hf] at h; exact ih ts h hu
          | some r =>
              simp only [hf] at h
              cases hg : extractRefsGo rlist rest with
              | error e => simp only [hg] at h; exact Except.noConfusion h
              | ok acc =>
                  simp only [hg, Except.ok.injEq] at h
                  subst h
                  rcases List.mem_append.mp hu with hu' | hu'
                  · exact ⟨r, hu'⟩
                  · exact ih acc hg hu'

theorem extractExisting_mem (cfg : PyVal) (i : Nat) (ts : List GlossaryTerm)
    (h : extractExistingTerms cfg i = .ok ts) (u : GlossaryTerm) (hu : u ∈ ts) :
    ∃ r, u ∈ extractTermsFromResource r := by
  unfold extractExistingTerms at h
  cases h1 : pyIter (dgetD cfg "resourceList" (.list [])) with
  | error e => simp only [h1] at h; exact Except.noConfusion h
  | ok rlist =>
      simp only [h1] at h
      cases h2 : pyIter (dgetD (match dget cfg "analysisEntityList" with
          | some (.list es) => es.getD i (.dict [])
          | _ => .dict []) "resources" (.list [])) with
      | error e => simp only [h2] at h; exact Except.noConfusion h
      | ok refs =>
          simp only [h2] at h
          exact extractRefsGo_mem rlist refs ts h u hu

theorem findOrCreate_found (now : String) (cfg : PyVal) (es : List PyVal)
    (i : Nat)
    (hA : dget cfg "analysisEntityList" = some (.list es))
    (hs : scanForGlossary es = .ok (some i)) :
    findOrCreateGlossaryEntity now cfg = .ok (cfg, i) := by
  rw [findOrCreateGlossaryEntity]
  simp only [hA]
  rw [findOrCreateGlossaryEntityGo]
  simp only [hs]

theorem findResource_append_last (ref : PyVal) (l : List PyVal) (B : PyVal)
    (hdict : ∀ r ∈ l, r.isDict = true)
    (hne : ∀ r ∈ l, pyEq (dgetD r "id" .none) ref = false)
    (hBd : B.isDict = true)
    (hBid : pyEq (dgetD B "id" .none) ref = true) :
    findResource ref (l ++ [B]) = .ok (some B) := by
  induction l with
  | nil =>
      rw [List.nil_append, findResource]
      simp [hBd, hBid]
  | cons r rest ih =>
      rw [List.cons_append, findResource]
      have hd := hdict r (List.mem_cons_self _ _)
      have hn := hne r (List.mem_cons_self _ _)
      simp only [hd, hn, Bool.not_true, Bool.false_eq_true, if_neg,
        not_false_iff, if_false]
      exact ih (fun x hx => hdict x (List.mem_cons_of_mem _ hx))
        (fun x hx => hne x (List.mem_cons_of_mem _ hx))

theorem filterMap_all_some {α β : Type} (f : α → Option β) (g : α → β)
    (l : List α) (h : ∀ x ∈ l, f x = some (g x)) :
    l.filterMap f = l.map g := by
  induction l with
  | nil => rfl
  | cons x xs ih =>
      rw [List.filterMap_cons, h x (List.mem_cons_self _ _), List.map_cons,
        ih (fun y hy => h y (List.mem_cons_of_mem _ hy))]

theorem extract_mkGlossaryResource (now rid : String)
    (ft : List GlossaryTerm) :
    extractTermsFromResource (mkGlossaryResource now rid ft) =
      ft.filterMap (fun t =>
        if t.phrase.strip ≠ "" && t.definition.strip ≠ "" then
          some ⟨t.phrase.strip, t.definition.strip,
            if pyTruthy t.metadata then t.metadata else .dict []⟩
        else Option.none) := by
  have hg : dget (mkGlossaryResource now rid ft) "glossary" =
      some (.list (ft.map GlossaryTerm.toDict)) := rfl
  unfold extractTermsFromResource
  simp only [hg]
  rw [List.filterMap_map]
  congr 1
  funext t
  by_cases hm : pyTruthy t.metadata <;>
    by_cases hp : t.phrase.strip = "" <;>
    by_cases hd : t.definition.strip = "" <;>
      simp [GlossaryTerm.toDict, hm, hasKey, dget, findPair, dgetD, pyStr,
        GlossaryTerm.init, PyVal.isDict, Except.toOption, hp, hd,
        Function.comp]

/-- C3 (counterexample): merging `[" A "]` (whitespace-padded phrase) into
the empty document succeeds twice, but the second run reports
`terms_added = 1` and `terms_updated = 0` instead of the claimed
`terms_added = 0`, `terms_updated = 1`, and `terms_after` grows from 1 to
2: the first run stores the padded phrase, re-extraction strips it, so the
second run no longer recognises the term as present. -/
theorem merge_idempotence_counterexample :
    (∃ p, cxRun1 = Except.ok p) ∧ (∃ p, cxRun2 = Except.ok p) ∧
    cxTerms.length = 1 ∧
    cxStats2.terms_added = 1 ∧
    cxStats2.terms_updated = 0 ∧
    cxStats1.terms_after = 1 ∧
    cxStats2.terms_after = 2 :=
  ⟨⟨_, rfl⟩, ⟨_, rfl⟩, rfl, rfl, rfl, rfl, rfl⟩

/-- C3 (amended): merge idempotence holds for clean term sets.  When every
provided term and every term already stored for the anchor has a
whitespace-fixed (stripped) non-empty phrase and definition, and the first
run's resource id is non-empty, a second "merge" run with the same terms
on the first run's output reports `terms_added = 0`, `terms_updated`
equal to the number of provided terms, and the same `terms_after` as the
first run. -/
theorem merge_idempotence_for_trimmed_terms
    (now1 rid1 now2 rid2 : String) (cfg : PyVal)
    (terms : List GlossaryTerm) (d1 d2 : PyVal) (s1 s2 : MergeStats)
    (hne : terms ≠ [])
    (hterms : ∀ t ∈ terms, t.phrase.strip = t.phrase ∧
      t.definition.strip = t.definition ∧ t.phrase ≠ "" ∧ t.definition ≠ "")
    (hexfix : ∀ u ∈ prepExisting now1 cfg, u.phrase.strip = u.phrase ∧
      u.definition.strip = u.definition)
    (hrid : rid1 ≠ "")
    (h1 : mergeGlossaryTerms now1 rid1 cfg terms "merge" = .ok (d1, s1))
    (h2 : mergeGlossaryTerms now2 rid2 d1 terms "merge" = .ok (d2, s2)) :
    s2.terms_added = 0 ∧ s2.terms_updated = terms.length ∧
    s2.terms_after = s1.terms_after := by
  obtain ⟨-, hv0, hcore1⟩ := mergeGT_ok now1 rid1 cfg terms "merge" d1 s1 h1
  obtain ⟨cfg₁, i, ex1, hprep1, hupd1, hvd1, hs1eq⟩ :=
    mergeCore_ok now1 rid1 cfg terms "merge" d1 s1 hcore1
  have hupd1' : updateConfigurationWithTerms now1 rid1 cfg₁ i
      (mergeTerms ex1 terms) = .ok d1 := hupd1
  obtain ⟨hfc1, hex1⟩ := mergePrep_ok now1 cfg cfg₁ i ex1 hprep1
  have hd0 : cfg.isDict = true := validateConfiguration_true_isDict cfg hv0
  obtain ⟨es₁, hA1, hscan1, hlt1, hdc1, -⟩ :=
    findOrCreate_ok now1 cfg cfg₁ i hd0 hfc1
  have hft1ne : mergeTerms ex1 terms ≠ [] := mergeTerms_ne_nil ex1 terms hne
  obtain ⟨oldIds, filtered, hH, hF, hAout, hRout, hDout⟩ :=
    update_ok now1 rid1 cfg₁ d1 i (mergeTerms ex1 terms) es₁ hdc1 hA1 hupd1'
  have hEmpty : (mergeTerms ex1 terms).isEmpty = false := by
    cases hmt : mergeTerms ex1 terms with
    | nil => exact absurd hmt hft1ne
    | cons a as => rfl
  simp only [hEmpty, Bool.false_eq_true, if_neg, not_false_iff] at hAout hRout
  set B := mkGlossaryResource now1 rid1 (mergeTerms ex1 terms) with hB
  set anchorE := dset (dset (es₁.getD i (.dict [])) "resources"
    (.list [.str rid1])) "updated" (.str now1) with hanchorE
  set esOut := es₁.set i anchorE with hesOut
  have hbody : validateConfigurationBody d1 = .ok [] :=
    (validateConfiguration_true_iff d1).mp hvd1
  have hvrl : validateResourceList (.list (filtered ++ [B])) = .ok [] :=
    validateBody_resourcePart d1 _ hbody hRout
  have hgo : validateResourceListGo 0 [] (filtered ++ [B]) = .ok [] :=
    validateResourceList_ok_go _ hvrl
  have halldict := resourceGo_all_dict (filtered ++ [B]) 0 [] hgo
  have hBid_eq : dgetD B "id" .none = .str rid1 := by
    rw [hB]; exact dget_mkGlossaryResource_id now1 rid1 _
  have htB : pyTruthy (dgetD B "id" .none) = true := by
    rw [hBid_eq]; simp [pyTruthy, hrid]
  have huniq := resourceGo_last_not_dup filtered 0 [] B hgo htB
  have hne_filtered : ∀ r ∈ filtered,
      pyEq (dgetD r "id" .none) (.str rid1) = false := by
    intro r hr
    rw [← Bool.not_eq_true]
    intro hc
    have hid := (pyEq_str_right _ _).mp hc
    by_cases htr : pyTruthy (dgetD r "id" .none) = true
    · have hfalse := huniq.2 r hr htr
      rw [hBid_eq, hid] at hfalse
      simp [pyEq] at hfalse
    · rw [hid] at htr
      exact htr (by simp [pyTruthy, hrid])
  have hfind : findResource (.str rid1) (filtered ++ [B]) = .ok (some B) :=
    findResource_append_last _ filtered B
      (fun r hr => halldict r (List.mem_append.mpr (Or.inl hr)))
      hne_filtered
      (by rw [hB]; rfl)
      (by rw [hBid_eq]; simp [pyEq])
  have hmatch0 : entityMatches (es₁.getD i (.dict [])) = .ok true :=
    scan_some_matches es₁ i hscan1
  have he₀d : (es₁.getD i (.dict [])).isDict = true :=
    entityMatches_isDict _ _ hmatch0
  have hmatchE : entityMatches anchorE = .ok true := by
    rw [hanchorE]
    exact entityMatches_anchor_update _ _ now1 hmatch0
  have hscanOut : scanForGlossary esOut = .ok (some i) := by
    rw [hesOut]
    exact scan_set_preserve es₁ i anchorE hscan1 hmatchE
  obtain ⟨-, -, hcore2⟩ := mergeGT_ok now2 rid2 d1 terms "merge" d2 s2 h2
  obtain ⟨cfg₁', i', ex2, hprep2, hupd2, hvd2, hs2eq⟩ :=
    mergeCore_ok now2 rid2 d1 terms "merge" d2 s2 hcore2
  obtain ⟨hfc2, hex2⟩ := mergePrep_ok now2 d1 cfg₁' i' ex2 hprep2
  have hfc2' : findOrCreateGlossaryEntity now2 d1 = .ok (d1, i) :=
    findOrCreate_found now2 d1 esOut i hAout hscanOut
  rw [hfc2'] at hfc2
  simp only [Except.ok.injEq, Prod.mk.injEq] at hfc2
  obtain ⟨rfl, rfl⟩ := hfc2
  have hgetD : esOut.getD i (.dict []) = anchorE := by
    rw [hesOut]
    exact getD_set_self es₁ i anchorE (.dict []) hlt1
  have hresE : dgetD anchorE "resources" (.list []) = .list [.str rid1] := by
    rw [hanchorE, dgetD]
    have hXd : (dset (es₁.getD i (.dict [])) "resources"
        (.list [.str rid1])).isDict = true := by
      rw [isDict_dset]; exact he₀d
    rw [dget_dset_ne' _ hXd _ _ _ (by decide), dget_dset_self' _ he₀d]
    rfl
  have hE : extractExistingTerms d1 i = .ok (extractTermsFromResource B) := by
    unfold extractExistingTerms
    simp only [hAout, hgetD]
    have hrl : dgetD d1 "resourceList" (.list []) = .list (filtered ++ [B]) := by
      rw [dgetD, hRout]
      rfl
    rw [hrl, hresE]
    simp only [pyIter]
    simp only [extractRefsGo, hfind, List.append_nil]
  rw [hE] at hex2
  simp only [Except.ok.injEq] at hex2
  have hprepEx : prepExisting now1 cfg = ex1 := by
    rw [prepExisting]
    simp only [hprep1]
  have hall : ∀ u ∈ mergeTerms ex1 terms, u.phrase.strip = u.phrase ∧
      u.definition.strip = u.definition ∧ u.phrase ≠ "" ∧ u.definition ≠ "" := by
    intro u hu
    rcases mergeTerms_mem ex1 terms u hu with hmem | hmem
    · have hfix := hexfix u (by rw [hprepEx]; exact hmem)
      obtain ⟨r, hr⟩ := extractExisting_mem cfg₁ i ex1 hex1 u hmem
      have hne' := extractTerms_nonempty r u hr
      exact ⟨hfix.1, hfix.2, hne'.1, hne'.2⟩
    · exact hterms u hmem
  have hx2 : ex2 = (mergeTerms ex1 terms).map
      (fun u => ⟨u.phrase, u.definition,
        if pyTruthy u.metadata then u.metadata else .dict []⟩) := by
    rw [← hex2, hB, extract_mkGlossaryResource]
    refine filterMap_all_some _ _ _ ?_
    intro u hu
    obtain ⟨hps, hds, hpn, hdn⟩ := hall u hu
    simp [hps, hds, hpn, hdn]
  have hcnt : countNewTerms ex2 terms = 0 := by
    rw [countNewTerms, List.length_eq_zero, List.filter_eq_nil_iff]
    intro t ht
    have hmemL : t.phrase.lower ∈
        (mergeTerms ex1 terms).map (fun u => u.phrase.lower) :=
      mergeTerms_lower_mem ex1 terms t.phrase.lower
        (Or.inr (List.mem_map_of_mem _ ht))
    have hmem2 : t.phrase.lower ∈ ex2.map (fun u => u.phrase.lower) := by
      rw [hx2, List.map_map]
      exact hmemL
    intro hcontra
    have hcont : (ex2.map (fun e => e.phrase.lower)).contains t.phrase.lower
        = true := List.elem_eq_true_of_mem hmem2
    rw [hcont] at hcontra
    simp at hcontra
  refine ⟨?_, ?_, ?_⟩
  · rw [hs2eq]
    show countNewTerms ex2 terms = 0
    exact hcnt
  · rw [hs2eq]
    show terms.length - countNewTerms ex2 terms = terms.length
    rw [hcnt, Nat.sub_zero]
  · rw [hs2eq, hs1eq]
    show (mergeTerms ex2 terms).length = (mergeTerms ex1 terms).length
    rw [mergeTerms_length ex2 terms, hcnt, Nat.add_zero, hx2, List.length_map]

/-- Witness for C3: merging the clean term `("A", "B.")` into the empty
document and then again into the result reports, on the second run, no
added terms, one updated term, and an unchanged term count. -/
theorem merge_idempotence_for_trimmed_terms_witness :
    w3stats2.terms_added = 0 ∧ w3stats2.terms_updated = c5terms.length ∧
    w3stats2.terms_after = w3stats1.terms_after :=
  merge_idempotence_for_trimmed_terms "T1" "R1" "T2" "R2" exCfgEmpty c5terms
    w3doc1 w3doc2 w3stats1 w3stats2
    (List.cons_ne_nil _ _)
    (by decide)
    (by
      intro u hu
      rw [show prepExisting "T1" exCfgEmpty = ([] : List GlossaryTerm)
        from rfl] at hu
      exact absurd hu (List.not_mem_nil u))
    (by decide)
    rfl
    rfl
